import Mathlib

/-!
Shallow embedding of `src/src/HTMLRenderer/TextLineBuffer.cc` from the
pdf2htmlEX repository, together with theorems settling the frozen claims
about that file.

Modelling conventions:
* C++ `double` values are modelled as rationals (`ℚ`); the claims under
  study are about control flow and exact arithmetic identities, not about
  floating-point rounding.
* The external deduplicating id-registries (`whitespace_manager`,
  `word_space_manager`, `height_manager`, `left_manager`, `bottom_manager`),
  and the configuration values `h_eps` / `space_threshold`, are opaque
  parameters gathered in the structure `Renderer`.
* The output stream is modelled as a list of abstract markup items (`Out`):
  element opens, element closes and literal text runs, in emission order.
* `State.hash_umask` is a 64-bit mask in the source, but every operation on
  it (`umask_by_id`, `|=`, `&= ~`, `&`) works on whole `0xff` bytes, one per
  style channel, so it is modelled as a per-byte flag `Fin 7 → Bool`
  (`true` = byte set = channel "free").  Likewise `State.hash_value` is the
  packed 64-bit key; it is modelled per byte as `Fin 7 → ℤ`.  Note the
  packing order of `State::hash`: `ids[0]` ends up in the topmost of the
  seven bytes, so byte `j` of the packed key holds `ids[6 - j] & 0xff`,
  while `umask_by_id(i)` masks byte `i`.  The function `rev7` makes this
  byte reversal explicit.
* The render loop of `flush` is a `while` loop; it is modelled with an
  explicit fuel parameter.  Every iteration either consumes a state record,
  consumes an offset record, or strictly advances the text cursor, so the
  fuel chosen by `flush` is an upper bound on the iteration count for any
  buffer produced by the append interface.
-/

namespace Pdf2htmlEX

/-- Style-channel indices, in the order of the `State` enum
(`FONT_ID, FONT_SIZE_ID, FILL_COLOR_ID, STROKE_COLOR_ID, LETTER_SPACE_ID,
WORD_SPACE_ID, RISE_ID`), as fixed by `set_state` and `css_class_names`. -/
def FONT_ID : Fin 7 := 0

def FONT_SIZE_ID : Fin 7 := 1

def FILL_COLOR_ID : Fin 7 := 2

def STROKE_COLOR_ID : Fin 7 := 3

def LETTER_SPACE_ID : Fin 7 := 4

def WORD_SPACE_ID : Fin 7 := 5

def RISE_ID : Fin 7 := 6

def ID_COUNT : Nat := 7

/-- Computable absolute value on the rationals (`std::abs` on doubles).
Mathlib's lattice-based `abs` does not reduce in the kernel, so the
embedding uses this definitionally equal form. -/
def absQ (x : ℚ) : ℚ := if x < 0 then -x else x

/-- Modelled from the spec: the repository's `util/math.h` is not under
`src/`; the spec requires a "fixed floating-point comparison epsilon" with
all numeric comparisons epsilon-tolerant.  `EPS` is that fixed epsilon. -/
def EPS : ℚ := 1 / 1000000

/-- Modelled from the spec: epsilon-tolerant equality (`equal` of
`util/math.h`, which is not under `src/`). -/
def equalQ (x y : ℚ) : Bool := decide (absQ (x - y) ≤ EPS)

/-- Modelled from the spec: epsilon-tolerant positivity test (`is_positive`
of `util/math.h`, which is not under `src/`). -/
def is_positiveQ (x : ℚ) : Bool := decide (EPS < x)

/-- Byte reversal of the packed key: `State::hash` shifts `ids[0]` into the
top byte, so byte `j` of `hash_value` holds `ids[6 - j] & 0xff`. -/
def rev7 (j : Fin 7) : Fin 7 := ⟨6 - j.val, by omega⟩

/-- One emitted class token.  `cls i id` is `css_class_names[i]` followed by
the id, `invalid i` is the `CSS::INVALID_ID` sentinel form, and `gap id` is
the `CSS::WHITESPACE_CN` pair on an explicit gap element. -/
inductive Token where
  | cls (channel : Fin 7) (id : ℤ)
  | invalid (channel : Fin 7)
  | gap (id : ℤ)
deriving DecidableEq

/-- One abstract output item written to the sink. -/
inductive Out where
  | openDiv (tm lid hid bid : ℤ)
  | closeDiv
  | openSpan (toks : List Token)
  | closeSpan
  | text (cs : List Nat)
deriving DecidableEq

/-- An `Offset` record of the line buffer. -/
structure Offset where
  start_idx : Nat
  width : ℚ
deriving DecidableEq

/-- A `State` record of the line buffer (one style segment). -/
structure State where
  start_idx : Nat
  ids : Fin 7 → ℤ
  hash_umask : Fin 7 → Bool
  hash_value : Fin 7 → ℤ
  ascent : ℚ
  descent : ℚ
  space_width : ℚ
  draw_font_size : ℚ
  letter_space : ℚ
  word_space : ℚ
  need_close : Bool
deriving DecidableEq

/-- Default-constructed `State` (used for `states.resize`). -/
def State.default : State where
  start_idx := 0
  ids := fun _ => 0
  hash_umask := fun _ => false
  hash_value := fun _ => 0
  ascent := 0
  descent := 0
  space_width := 0
  draw_font_size := 0
  letter_space := 0
  word_space := 0
  need_close := false

/-- `State::single_space_offset`. -/
def State.single_space_offset (s : State) : ℚ :=
  s.word_space + s.letter_space + s.space_width * s.draw_font_size

/-- `State::em_size`. -/
def State.em_size (s : State) : ℚ := s.draw_font_size * (s.ascent - s.descent)

/-- `State::hash`: recompute the packed key from the ids; `ids[i] & 0xff`
is `ids i % 256` on two's-complement integers, stored at byte `6 - i`. -/
def State.hash (s : State) : State :=
  { s with hash_value := fun j => s.ids (rev7 j) % 256 }

/-- The count computed by the per-channel fallback loop of `State::diff`:
channels unmasked in both states whose ids differ. -/
def State.mismatchCount (a b : State) : Nat :=
  (Finset.univ.filter fun i : Fin 7 =>
    a.hash_umask i = false ∧ b.hash_umask i = false ∧ a.ids i ≠ b.ids i).card

/-- `State::diff`: fast path comparing the packed keys restricted to
`~(hash_umask | s.hash_umask)` (byte `j` is compared when it is masked in
neither state), then the per-channel fallback count. -/
def State.diff (a b : State) : Nat :=
  if ∀ j : Fin 7, a.hash_umask j = false → b.hash_umask j = false →
      a.hash_value j = b.hash_value j then 0
  else State.mismatchCount a b

/-- One iteration of the channel loop of `State::begin`: adopt a parent
channel into a free channel, or decide whether to emit the channel's class
token. -/
def State.beginStep (prev : Option State) (acc : State × List Token) (i : Fin 7) :
    State × List Token :=
  let st := acc.1
  let toks := acc.2
  if st.hash_umask i then
    match prev with
    | some p =>
      if p.hash_umask i then (st, toks)
      else
        ({ st with
            ids := Function.update st.ids i (p.ids i)
            hash_umask := Function.update st.hash_umask i false
            draw_font_size := if i = FONT_SIZE_ID then p.draw_font_size else st.draw_font_size
            letter_space := if i = LETTER_SPACE_ID then p.letter_space else st.letter_space
            word_space := if i = WORD_SPACE_ID then p.word_space else st.word_space },
          toks)
    | none => (st, toks)
  else
    if (match prev with
        | some p => !p.hash_umask i && decide (p.ids i = st.ids i)
        | none => false) then
      (st, toks)
    else
      (st, toks ++ [if st.ids i = -1 then Token.invalid i else Token.cls i (st.ids i)])

/-- `State::begin`: run the channel loop; open a span iff at least one
token was emitted, and record that in `need_close`.  Returns the updated
state and the emitted tokens. -/
def State.begin (self : State) (prev : Option State) : State × List Token :=
  let r := (List.finRange 7).foldl (State.beginStep prev) (self, [])
  ({ r.1 with need_close := !r.2.isEmpty }, r.2)

/-- `State::end`: emit the matching close iff this state opened a span. -/
def State.end' (s : State) : List Out :=
  if s.need_close then [Out.closeSpan] else []

/-- External collaborators of the buffer: configuration values and the
deduplicating id-registries (each `install` returns the id; the whitespace
and word-space registries also return the actual value they will render). -/
structure Renderer where
  h_eps : ℚ
  space_threshold : ℚ
  whitespace_manager : ℚ → ℤ × ℚ
  word_space_manager : ℚ → ℤ × ℚ
  height_manager : ℚ → ℤ
  left_manager : ℚ → ℤ
  bottom_manager : ℚ → ℤ

/-- The style values the renderer currently holds (what `set_state` reads
from the managers and `cur_font_info`). -/
structure Snapshot where
  font_id : ℤ
  font_size_id : ℤ
  fill_color_id : ℤ
  stroke_color_id : ℤ
  letter_space_id : ℤ
  word_space_id : ℤ
  rise_id : ℤ
  ascent : ℚ
  descent : ℚ
  space_width : ℚ
  draw_font_size : ℚ
  letter_space : ℚ
  word_space : ℚ

/-- `TextLineBuffer::set_state`: fill all seven channel ids and the
associated values from the currently active style. -/
def set_state (r : Snapshot) (st : State) : State :=
  { st with
    ids := ![r.font_id, r.font_size_id, r.fill_color_id, r.stroke_color_id,
             r.letter_space_id, r.word_space_id, r.rise_id]
    ascent := r.ascent
    descent := r.descent
    space_width := r.space_width
    draw_font_size := r.draw_font_size
    letter_space := r.letter_space
    word_space := r.word_space }

/-- The line buffer: text, offsets, states, and the line anchor. -/
structure TextLineBuffer where
  text : List Nat
  offsets : List Offset
  states : List State
  x : ℚ
  y : ℚ
  tm_id : ℤ
deriving DecidableEq

/-- An empty buffer with a given line anchor. -/
def TextLineBuffer.empty (x y : ℚ) (tm : ℤ) : TextLineBuffer :=
  { text := [], offsets := [], states := [], x := x, y := y, tm_id := tm }

/-- `TextLineBuffer::append_unicodes`. -/
def TextLineBuffer.append_unicodes (buf : TextLineBuffer) (us : List Nat) : TextLineBuffer :=
  { buf with text := buf.text ++ us }

/-- `TextLineBuffer::append_offset`: merge into the last record when it sits
at the current text length, else push a fresh record there. -/
def TextLineBuffer.append_offset (buf : TextLineBuffer) (width : ℚ) : TextLineBuffer :=
  match buf.offsets.getLast? with
  | some o =>
    if o.start_idx = buf.text.length then
      { buf with offsets := buf.offsets.dropLast ++ [{ o with width := o.width + width }] }
    else
      { buf with offsets := buf.offsets ++ [{ start_idx := buf.text.length, width := width }] }
  | none =>
    { buf with offsets := buf.offsets ++ [{ start_idx := buf.text.length, width := width }] }

/-- `TextLineBuffer::append_state`: open a fresh segment (with cleared
`hash_umask`) only when the last one does not sit at the current text
length, then overwrite it via `set_state`. -/
def TextLineBuffer.append_state (buf : TextLineBuffer) (snap : Snapshot) : TextLineBuffer :=
  match buf.states.getLast? with
  | some s =>
    if s.start_idx = buf.text.length then
      { buf with states := buf.states.dropLast ++ [set_state snap s] }
    else
      { buf with states := buf.states ++
          [set_state snap
            { State.default with start_idx := buf.text.length, hash_umask := fun _ => false }] }
  | none =>
    { buf with states := buf.states ++
        [set_state snap
          { State.default with start_idx := buf.text.length, hash_umask := fun _ => false }] }

/-- One insertion into the sorted width map of `optimize`
(`width_map.lower_bound(target - EPS)` followed by the epsilon bucket test,
incrementing the bucket count or inserting a fresh bucket before it). -/
def widthInsert : List (ℚ × Nat) → ℚ → List (ℚ × Nat)
  | [], t => [(t, 1)]
  | (k, c) :: rest, t =>
    if k < t - EPS then (k, c) :: widthInsert rest t
    else if absQ (k - t) ≤ EPS then (k, c + 1) :: rest
    else (t, 1) :: (k, c) :: rest

/-- The width-collection loop of `optimize`: widths below
`threshold - EPS` are skipped, the rest are bucketed into the sorted map. -/
def collectWidths (threshold : ℚ) (inSeg : List Offset) : List (ℚ × Nat) :=
  inSeg.foldl (fun m o => if o.width < threshold - EPS then m else widthInsert m o.width) []

/-- The selection loop of `optimize`: starting from
`most_used_width = 0, max_count = 0`, walk the map in ascending key order
and keep the first bucket with a strictly larger count. -/
def mostUsedWidth (wm : List (ℚ × Nat)) : ℚ :=
  (wm.foldl (fun best kc => if best.2 < kc.2 then kc else best) (0, 0)).1

/-- The per-segment body of `optimize` on a spaceless segment, given the
offsets whose `start_idx` lies inside the segment: free the word-space
channel when no width qualifies, else zero `word_space`, install
`most_used_width - single_space_offset()` via the word-space registry, and
bind the channel to the installed id and actual value. -/
def inferWordSpace (r : Renderer) (s : State) (inSeg : List Offset) : State :=
  let threshold := s.em_size * r.space_threshold
  let wm := collectWidths threshold inSeg
  if wm.isEmpty then
    { s with hash_umask := Function.update s.hash_umask WORD_SPACE_ID true }
  else
    let s0 := { s with word_space := 0 }
    let nws := mostUsedWidth wm - s0.single_space_offset
    let ia := r.word_space_manager nws
    { s0 with
        ids := Function.update s0.ids WORD_SPACE_ID ia.1
        word_space := ia.2
        hash_umask := Function.update s0.hash_umask WORD_SPACE_ID false }

/-- The segment loop of `TextLineBuffer::optimize`: each segment is bounded
by the next segment's start (or the text end); segments whose text slice
contains a literal space are skipped, leaving the shared offset iterator in
place; otherwise the iterator is advanced to the segment start, the offsets
inside the segment are consumed, and `inferWordSpace` rewrites the
segment's word-space channel. -/
def optimizeAux (r : Renderer) (text : List Nat) : List Offset → List State → List State
  | _, [] => []
  | offs, s :: rest =>
    let idx2 := match rest with | [] => text.length | s2 :: _ => s2.start_idx
    let slice := (text.drop s.start_idx).take (idx2 - s.start_idx)
    if slice.contains 32 then s :: optimizeAux r text offs rest
    else
      let offsA := offs.dropWhile fun o => decide (o.start_idx < s.start_idx)
      let inSeg := offsA.takeWhile fun o => decide (o.start_idx < idx2)
      let offsB := offsA.dropWhile fun o => decide (o.start_idx < idx2)
      inferWordSpace r s inSeg :: optimizeAux r text offsB rest

/-- `TextLineBuffer::optimize`. -/
def TextLineBuffer.optimize (r : Renderer) (buf : TextLineBuffer) : TextLineBuffer :=
  { buf with states := optimizeAux r buf.text buf.offsets buf.states }

/-- The greedy ancestor scan of `flush` (the loop over `stack.rbegin()`).
`above` holds the already scanned elements still on the stack strictly above
the current position (innermost first), `best` the best cost so far; the
result is the stack after the scan (innermost first, the implicit root is
the end of the list) together with the popped elements in pop order.  When
a strictly better candidate is found everything above it is popped; the
scan stops on a zero-cost candidate or on an element whose `start_idx` is
at or before `lastNeg`. -/
def scanAux (s : State) (lastNeg : Nat) :
    List State → Nat → List State → List State × List State
  | above, _, [] => (above, [])
  | above, best, e :: rest =>
    let cost := State.diff s e
    if cost < best then
      if cost = 0 then (e :: rest, above)
      else if e.start_idx ≤ lastNeg then (e :: rest, above)
      else
        let r := scanAux s lastNeg [e] cost rest
        (r.1, above ++ r.2)
    else
      if e.start_idx ≤ lastNeg then (above ++ e :: rest, [])
      else scanAux s lastNeg (above ++ [e]) best rest

/-- The ancestor scan as started by `flush`: empty `above`, initial best
cost `State::ID_COUNT`. -/
def scanStack (s : State) (lastNeg : Nat) (stack : List State) :
    List State × List State :=
  scanAux s lastNeg [] ID_COUNT stack

/-- The offset-boundary block of `flush` (lines 157-200).  Arguments: the
active state `cs = stack.back()`, the offset width, the carry `dx`, the
current text index and the latest negative-offset index.  Returns the
emitted items, `actual_offset`, the new carry `target - actual_offset`, and
the new negative-offset index. -/
def processOffset (r : Renderer) (cs : State) (width dx : ℚ) (cur_text_idx lastNeg : Nat) :
    List Out × ℚ × ℚ × Nat :=
  let target := width + dx
  if absQ target ≤ r.h_eps then
    ([], 0, target - 0, lastNeg)
  else if cs.hash_umask WORD_SPACE_ID = false ∧
      absQ (target - cs.single_space_offset) ≤ r.h_eps then
    ([Out.text [32]], cs.single_space_offset, target - cs.single_space_offset, lastNeg)
  else
    let ia := r.whitespace_manager target
    let actual_offset := ia.2
    if equalQ actual_offset 0 = false then
      let lastNeg' := if is_positiveQ (-actual_offset) then cur_text_idx else lastNeg
      let threshold := cs.em_size * r.space_threshold
      ([Out.openSpan [Token.gap ia.1],
        Out.text (if threshold - EPS < target then [32] else []),
        Out.closeSpan],
        actual_offset, target - actual_offset, lastNeg')
    else
      ([], actual_offset, target - actual_offset, lastNeg)

/-- Start index of the state the iterator points at (the trailing dummy
record guarantees `d = text.length` when the list is exhausted). -/
def headStartS (l : List State) (d : Nat) : Nat :=
  match l with
  | [] => d
  | s :: _ => s.start_idx

/-- Start index of the offset the iterator points at. -/
def headStartO (l : List Offset) (d : Nat) : Nat :=
  match l with
  | [] => d
  | o :: _ => o.start_idx

/-- The state-boundary block of the render loop (lines 125-155): when the
next state starts at or before the cursor, run the greedy ancestor scan,
close the popped elements, `begin` the new state under the found parent and
push it.  Returns the emitted items, the remaining states and the new
stack. -/
def stateBoundary (sts : List State) (stack : List State) (lastNeg cur : Nat) :
    List Out × List State × List State :=
  match sts with
  | s :: rest =>
    if s.start_idx ≤ cur then
      let sc := scanStack s lastNeg stack
      let popped := sc.2.foldr (fun st acc => st.end' ++ acc) []
      let b := State.begin s sc.1.head?
      (popped ++ (if b.2.isEmpty then [] else [Out.openSpan b.2]), rest, b.1 :: sc.1)
    else ([], sts, stack)
  | [] => ([], sts, stack)

/-- The offset-boundary block of the render loop (lines 157-200): when the
next offset starts at or before the cursor, resolve it against the active
state `stack.back()`.  Returns the emitted items, the remaining offsets,
the new carry and the new negative-offset index.  (The empty-stack case is
unreachable from `flush`, whose first state starts at index 0; the C++
would dereference a null pointer there.) -/
def offsetBoundary (r : Renderer) (offs : List Offset) (stack : List State)
    (dx : ℚ) (lastNeg cur : Nat) : List Out × List Offset × ℚ × Nat :=
  match offs with
  | o :: orest =>
    if o.start_idx ≤ cur then
      match stack with
      | cs :: _ =>
        let rr := processOffset r cs o.width dx cur lastNeg
        (rr.1, orest, rr.2.2.1, rr.2.2.2)
      | [] => ([], orest, o.width + dx, lastNeg)
    else ([], offs, dx, lastNeg)
  | [] => ([], offs, dx, lastNeg)

/-- The main render loop of `flush` (`while cur_text_idx < text.size()`),
with explicit fuel.  Each iteration: handle a state boundary (greedy scan,
`begin`, push), handle an offset boundary (`processOffset`), then copy the
text run up to the next boundary.  Returns the emitted items and the final
stack (innermost first). -/
def flushLoop (r : Renderer) (text : List Nat) :
    Nat → List State → List Offset → List State → ℚ → Nat → Nat → List Out × List State
  | 0, _, _, stack, _, _, _ => ([], stack)
  | fuel + 1, sts, offs, stack, dx, lastNeg, cur =>
    if cur < text.length then
      let p1 := stateBoundary sts stack lastNeg cur
      let p2 := offsetBoundary r offs p1.2.2 dx lastNeg cur
      let next := min (headStartS p1.2.1 text.length) (headStartO p2.2.1 text.length)
      let seg := (text.drop cur).take (next - cur)
      let outT : List Out := if seg.isEmpty then [] else [Out.text seg]
      let rest := flushLoop r text fuel p1.2.1 p2.2.1 p1.2.2 p2.2.2.1 p2.2.2.2 next
      (p1.1 ++ p2.1 ++ outT ++ rest.1, rest.2)
    else ([], stack)

/-- `TextLineBuffer::flush`.  Returns the emitted items, the buffer after
the call, and whether the "text without a style" warning was logged.  An
empty buffer is a silent no-op; a non-empty buffer whose first state does
not start at index 0 logs the warning and returns without touching the
buffer; otherwise the line is optimized, rendered and the buffer cleared. -/
def TextLineBuffer.flush (r : Renderer) (buf : TextLineBuffer) :
    List Out × TextLineBuffer × Bool :=
  if buf.text.isEmpty then ([], buf, false)
  else
    match buf.states with
    | [] => ([], buf, true)
    | s0 :: _ =>
      if s0.start_idx ≠ 0 then ([], buf, true)
      else
        let sts0 := optimizeAux r buf.text buf.offsets buf.states
        let max_ascent := sts0.foldl (fun m s => max m (s.ascent * s.draw_font_size)) 0
        let sts1 := sts0 ++ [{ State.default with start_idx := buf.text.length }]
        let sts2 := sts1.map State.hash
        let offs1 := buf.offsets ++ [{ start_idx := buf.text.length, width := 0 }]
        let hid := r.height_manager max_ascent
        let lid := r.left_manager buf.x
        let bid := r.bottom_manager buf.y
        let fuel := buf.text.length + sts2.length + offs1.length + 1
        let body := flushLoop r buf.text fuel sts2 offs1 [] 0 0 0
        let closes := body.2.foldr (fun st acc => st.end' ++ acc) []
        (Out.openDiv buf.tm_id lid hid bid :: (body.1 ++ closes ++ [Out.closeDiv]),
          { buf with text := [], offsets := [], states := [] }, false)

/-- One append call of the accumulation phase. -/
inductive AppendOp where
  | unicodes (us : List Nat)
  | offset (w : ℚ)
  | state (snap : Snapshot)

/-- Apply one append call to the buffer. -/
def applyOp (buf : TextLineBuffer) : AppendOp → TextLineBuffer
  | AppendOp.unicodes us => buf.append_unicodes us
  | AppendOp.offset w => buf.append_offset w
  | AppendOp.state snap => buf.append_state snap

/-- Apply a sequence of append calls to the buffer. -/
def applyOps (buf : TextLineBuffer) (ops : List AppendOp) : TextLineBuffer :=
  ops.foldl applyOp buf

/-- Number of element opens in an output fragment. -/
def opens (l : List Out) : Nat :=
  l.countP fun o =>
    match o with
    | Out.openDiv _ _ _ _ => true
    | Out.openSpan _ => true
    | _ => false

/-- Number of element closes in an output fragment. -/
def closes (l : List Out) : Nat :=
  l.countP fun o =>
    match o with
    | Out.closeDiv => true
    | Out.closeSpan => true
    | _ => false

/-- Number of stack entries that own a close. -/
def ncount (stack : List State) : Nat :=
  stack.countP fun st => st.need_close

/-- An opened element counts as a style element when its class list carries
no gap token (gap elements always carry one). -/
def styleOpens (l : List Out) : Nat :=
  l.countP fun o =>
    match o with
    | Out.openSpan toks => !(toks.any fun t =>
        match t with
        | Token.gap _ => true
        | _ => false)
    | _ => false

/-- Number of outer line wrappers in an output fragment. -/
def divOpens (l : List Out) : Nat :=
  l.countP fun o =>
    match o with
    | Out.openDiv _ _ _ _ => true
    | _ => false

/-- Concrete buffer used by witnesses: text of length 1, one offset at
position 0 of width 2. -/
def bufW : TextLineBuffer :=
  { text := [65], offsets := [{ start_idx := 0, width := 2 }], states := [],
    x := 0, y := 0, tm_id := 0 }

/-- Concrete snapshots used by witnesses. -/
def snapW : Snapshot :=
  { font_id := 1, font_size_id := 2, fill_color_id := 3, stroke_color_id := 4,
    letter_space_id := 5, word_space_id := 6, rise_id := 7,
    ascent := 1, descent := 0, space_width := 1,
    draw_font_size := 10, letter_space := 0, word_space := 2 }

def snapW2 : Snapshot := { snapW with font_id := 8, word_space := 5 }

/-- Buffer whose single state segment sits exactly at the text length. -/
def bufW2 : TextLineBuffer :=
  ((TextLineBuffer.empty 0 0 0).append_unicodes [65]).append_state snapW

/-- Concrete renderer used by witnesses and counterexamples: the gap and
word-space registries echo the requested value with fixed fresh ids. -/
def rFix : Renderer :=
  { h_eps := 1, space_threshold := 0,
    whitespace_manager := fun q => (9, q),
    word_space_manager := fun q => (11, q),
    height_manager := fun _ => 0, left_manager := fun _ => 0, bottom_manager := fun _ => 0 }

/-- Buffer with text but no state segment (the failure mode of claim C6). -/
def bufC6 : TextLineBuffer :=
  { text := [65], offsets := [], states := [], x := 0, y := 0, tm_id := 0 }

/-- All-bound state whose ids are all 0. -/
def sCA : State := State.hash { State.default with ids := fun _ => 0 }

/-- All-bound state whose font-family id is 256: it collides with 0 in the
packed one-byte-per-channel key. -/
def sCB : State := State.hash { State.default with ids := ![256, 0, 0, 0, 0, 0, 0] }

/-- All-bound state whose font-family id is 1 (no byte collision). -/
def sCW : State := State.hash { State.default with ids := ![1, 0, 0, 0, 0, 0, 0] }

/-- State with every channel free (as after freeing in a parent search). -/
def csFree : State := { State.default with hash_umask := fun _ => true }

/-- State whose word-space channel is bound and whose natural single-space
advance is 5. -/
def csW : State := { State.default with word_space := 5 }

/-- Renderer whose gap-width registry snaps every request to an actual
offset of 0. -/
def rSnap0 : Renderer := { rFix with whitespace_manager := fun _ => (7, 0) }

/-- States used by the claim C3 witness: the new segment `sScan`, an inner
element `bScan` (cost 1, opened at index 6), the boundary element `eScan`
(opened at index 4, within the negative-offset boundary 4), and a zero-cost
ancestor `aScan` beyond it. -/
def sScan : State := State.hash { State.default with ids := fun _ => 9 }

def bScan : State :=
  State.hash { State.default with start_idx := 6, ids := ![9, 9, 9, 9, 9, 9, 1] }

def eScan : State := State.hash { State.default with start_idx := 4, ids := fun _ => 3 }

def aScan : State := State.hash { State.default with ids := fun _ => 9 }

/-- Closed form of the per-channel emission decision of `State::begin`:
`none` when the channel is free in `self`, or bound with the parent bound
to the same id; otherwise exactly one token, the invalid sentinel when the
id is -1. -/
def beginEmits (self : State) (prev : Option State) (i : Fin 7) : Option Token :=
  if self.hash_umask i then none
  else if (match prev with
      | some p => !p.hash_umask i && decide (p.ids i = self.ids i)
      | none => false) then none
  else some (if self.ids i = -1 then Token.invalid i else Token.cls i (self.ids i))

/-- Closed form of the adoption decision of `State::begin`: a channel free
in `self` but bound in the parent is adopted. -/
def adoptsB (self : State) (prev : Option State) (i : Fin 7) : Bool :=
  self.hash_umask i && (match prev with | some p => !p.hash_umask i | none => false)

/-- The state update performed when channel `i` is adopted from the parent. -/
def adoptUpdate (st : State) (prev : Option State) (i : Fin 7) : State :=
  match prev with
  | some p =>
    { st with
        ids := Function.update st.ids i (p.ids i)
        hash_umask := Function.update st.hash_umask i false
        draw_font_size := if i = FONT_SIZE_ID then p.draw_font_size else st.draw_font_size
        letter_space := if i = LETTER_SPACE_ID then p.letter_space else st.letter_space
        word_space := if i = WORD_SPACE_ID then p.word_space else st.word_space }
  | none => st

/-- Parent id for a channel (0 when there is no parent; only used under
`adoptsB = true`, which forces a parent). -/
def parentIds (prev : Option State) (j : Fin 7) : ℤ :=
  match prev with | some p => p.ids j | none => 0

def parentDFS (prev : Option State) : ℚ :=
  match prev with | some p => p.draw_font_size | none => 0

def parentLS (prev : Option State) : ℚ :=
  match prev with | some p => p.letter_space | none => 0

def parentWS (prev : Option State) : ℚ :=
  match prev with | some p => p.word_space | none => 0

/-- Self state bound only on the font-family channel (id 5). -/
def csSelf : State :=
  { State.default with hash_umask := fun j => decide (j ≠ FONT_ID), ids := fun _ => 5 }

/-- Parent state with every channel free (no bound value at all). -/
def csParentFree : State := { State.default with hash_umask := fun _ => true }

/-- State with every channel bound, starting at index 0. -/
def csSelfAllBound : State := { State.default with hash_umask := fun _ => false }

/-- Buffer with one uniform state segment and the text "H". -/
def buf8 : TextLineBuffer :=
  ((TextLineBuffer.empty 0 0 0).append_state snapW).append_unicodes [72]

/-! Helper lemmas and theorems.  The rational arithmetic operations are
sealed (irreducible) by default; making them semireducible lets `decide`
evaluate the embedding on concrete witness inputs. -/

attribute [local semireducible] Rat.add Rat.mul Rat.sub Rat.inv



theorem append_offset_text (buf : TextLineBuffer) (w : ℚ) :
    (buf.append_offset w).text = buf.text := by
  unfold TextLineBuffer.append_offset
  rcases h : buf.offsets.getLast? with _ | o <;> simp
  split <;> simp

theorem append_state_text (buf : TextLineBuffer) (snap : Snapshot) :
    (buf.append_state snap).text = buf.text := by
  unfold TextLineBuffer.append_state
  rcases h : buf.states.getLast? with _ | s <;> simp
  split <;> simp

/-- Claim C9 helper: pushing branch of `append_offset`. -/
theorem append_offset_push (buf : TextLineBuffer) (w : ℚ)
    (h : ∀ o ∈ buf.offsets.getLast?, o.start_idx ≠ buf.text.length) :
    (buf.append_offset w).offsets
      = buf.offsets ++ [{ start_idx := buf.text.length, width := w }] := by
  unfold TextLineBuffer.append_offset
  rcases ho : buf.offsets.getLast? with _ | o
  · simp
  · have := h o (by simp [ho])
    simp [this]

/-- Claim C9 helper: two consecutive `append_offset` calls collapse. -/
theorem append_offset_append_offset (buf : TextLineBuffer) (w1 w2 : ℚ) :
    (buf.append_offset w1).append_offset w2 = buf.append_offset (w1 + w2) := by
  rcases buf.offsets.eq_nil_or_concat with h0 | ⟨L, o, h0⟩
  · have h1 : buf.append_offset w1
        = { buf with offsets := [{ start_idx := buf.text.length, width := w1 }] } := by
      unfold TextLineBuffer.append_offset
      simp [h0]
    have h2 : buf.append_offset (w1 + w2)
        = { buf with offsets := [{ start_idx := buf.text.length, width := w1 + w2 }] } := by
      unfold TextLineBuffer.append_offset
      simp [h0]
    rw [h1, h2]
    unfold TextLineBuffer.append_offset
    simp
  · rw [List.concat_eq_append] at h0
    by_cases hs : o.start_idx = buf.text.length
    · have h1 : buf.append_offset w1
          = { buf with offsets := L ++ [{ o with width := o.width + w1 }] } := by
        unfold TextLineBuffer.append_offset
        simp [h0, List.getLast?_concat, hs, List.dropLast_concat]
      have h2 : buf.append_offset (w1 + w2)
          = { buf with offsets := L ++ [{ o with width := o.width + (w1 + w2) }] } := by
        unfold TextLineBuffer.append_offset
        simp [h0, List.getLast?_concat, hs, List.dropLast_concat]
      rw [h1, h2]
      unfold TextLineBuffer.append_offset
      simp [List.getLast?_concat, hs, List.dropLast_concat]
      ring
    · have h1 : buf.append_offset w1
          = { buf with offsets := (L ++ [o]) ++ [{ start_idx := buf.text.length, width := w1 }] } := by
        unfold TextLineBuffer.append_offset
        simp [h0, List.getLast?_concat, hs]
      have h2 : buf.append_offset (w1 + w2)
          = { buf with offsets := (L ++ [o]) ++ [{ start_idx := buf.text.length, width := w1 + w2 }] } := by
        unfold TextLineBuffer.append_offset
        simp [h0, List.getLast?_concat, hs]
      rw [h1, h2]
      unfold TextLineBuffer.append_offset
      simp [List.getLast?_concat, List.dropLast_concat]

/-- Claim C9 helper: `append_offset` keeps offset positions strictly
increasing and bounded by the text length. -/
theorem append_offset_sorted (buf : TextLineBuffer) (w : ℚ)
    (hsort : (buf.offsets.map Offset.start_idx).Pairwise (· < ·))
    (hle : ∀ o ∈ buf.offsets, o.start_idx ≤ buf.text.length) :
    ((buf.append_offset w).offsets.map Offset.start_idx).Pairwise (· < ·) ∧
    ∀ o ∈ (buf.append_offset w).offsets, o.start_idx ≤ (buf.append_offset w).text.length := by
  rw [append_offset_text]
  rcases buf.offsets.eq_nil_or_concat with h0 | ⟨L, o, h0⟩
  · have h1 : (buf.append_offset w).offsets
        = [{ start_idx := buf.text.length, width := w }] := by
      unfold TextLineBuffer.append_offset
      simp [h0]
    rw [h1]
    refine ⟨by simp, ?_⟩
    intro o ho
    simp only [List.mem_singleton] at ho
    simp [ho]
  · rw [List.concat_eq_append] at h0
    by_cases hs : o.start_idx = buf.text.length
    · have h1 : (buf.append_offset w).offsets
          = L ++ [{ o with width := o.width + w }] := by
        unfold TextLineBuffer.append_offset
        simp [h0, List.getLast?_concat, hs, List.dropLast_concat]
      have hmap : (L ++ [{ o with width := o.width + w }]).map Offset.start_idx
          = (L ++ [o]).map Offset.start_idx := by simp
      rw [h1]
      refine ⟨by rw [hmap, ← h0]; exact hsort, ?_⟩
      intro o' ho'
      rcases List.mem_append.mp ho' with h | h
      · exact hle o' (by rw [h0]; exact List.mem_append.mpr (Or.inl h))
      · simp only [List.mem_singleton] at h
        subst h
        simp [hs]
    · have h1 : (buf.append_offset w).offsets
          = (L ++ [o]) ++ [{ start_idx := buf.text.length, width := w }] := by
        unfold TextLineBuffer.append_offset
        simp [h0, List.getLast?_concat, hs]
      rw [h1]
      have holast : o.start_idx < buf.text.length :=
        lt_of_le_of_ne (hle o (by rw [h0]; exact List.mem_append.mpr (Or.inr (by simp)))) hs
      have hall : ∀ y ∈ L ++ [o], y.start_idx < buf.text.length := by
        intro y hy
        rcases List.mem_append.mp hy with h | h
        · have hsort' := hsort
          rw [h0, List.map_append, List.pairwise_append] at hsort'
          have := hsort'.2.2 y.start_idx (List.mem_map_of_mem Offset.start_idx h)
            o.start_idx (by simp)
          exact lt_trans this holast
        · simp only [List.mem_singleton] at h
          subst h
          exact holast
      constructor
      · rw [List.map_append, List.pairwise_append]
        refine ⟨by rw [← h0]; exact hsort, by simp, ?_⟩
        intro a ha b hb
        simp only [List.map_cons, List.map_nil, List.mem_singleton] at hb
        subst hb
        rcases List.mem_map.mp ha with ⟨y, hy, rfl⟩
        exact hall y hy
      · intro o' ho'
        rcases List.mem_append.mp ho' with h | h
        · exact le_of_lt (hall o' h)
        · simp only [List.mem_singleton] at h
          subst h
          exact le_refl _

/-- Claim C9: two consecutive `append_offset` calls with no intervening text
append merge into a single record at the current text length whose width is
the sum of the two widths (exactly, when no record already sits there);
otherwise a single call pushes a fresh record at the current text length,
and offset positions stay strictly increasing with one record per position. -/
theorem append_offset_merge (buf : TextLineBuffer) (w1 w2 : ℚ)
    (hfresh : ∀ o ∈ buf.offsets.getLast?, o.start_idx ≠ buf.text.length)
    (hsort : (buf.offsets.map Offset.start_idx).Pairwise (· < ·))
    (hle : ∀ o ∈ buf.offsets, o.start_idx ≤ buf.text.length) :
    ((buf.append_offset w1).append_offset w2).offsets
        = buf.offsets ++ [{ start_idx := buf.text.length, width := w1 + w2 }] ∧
    (buf.append_offset w1).offsets
        = buf.offsets ++ [{ start_idx := buf.text.length, width := w1 }] ∧
    (buf.append_offset w1).append_offset w2 = buf.append_offset (w1 + w2) ∧
    ((buf.append_offset w1).offsets.map Offset.start_idx).Pairwise (· < ·) ∧
    ∀ o ∈ (buf.append_offset w1).offsets,
      o.start_idx ≤ (buf.append_offset w1).text.length := by
  refine ⟨?_, append_offset_push buf w1 hfresh, append_offset_append_offset buf w1 w2,
    append_offset_sorted buf w1 hsort hle⟩
  rw [append_offset_append_offset buf w1 w2]
  exact append_offset_push buf (w1 + w2) hfresh

/-- Witness for claim C9 at a concrete buffer. -/
theorem append_offset_merge_witness :
    (∀ o ∈ bufW.offsets.getLast?, o.start_idx ≠ bufW.text.length) ∧
    ((bufW.append_offset 3).append_offset 4).offsets
      = bufW.offsets ++ [{ start_idx := bufW.text.length, width := 3 + 4 }] :=
  ⟨by decide, (append_offset_merge bufW 3 4 (by decide) (by decide) (by decide)).1⟩

/-- Claim C10 helper: `set_state` discards any previous `set_state`. -/
theorem set_state_set_state (s1 s2 : Snapshot) (st : State) :
    set_state s2 (set_state s1 st) = set_state s2 st := rfl

/-- Claim C10: calling `append_state` when the last segment already sits at
the current text length creates no new segment; the existing segment's ids
and values are overwritten by the current style, so of several snapshots at
one text position only the last one takes effect. -/
theorem append_state_overwrite (buf : TextLineBuffer) (snap : Snapshot) (s : State)
    (hlast : buf.states.getLast? = some s) (hidx : s.start_idx = buf.text.length) :
    (buf.append_state snap).states.length = buf.states.length ∧
    (buf.append_state snap).states = buf.states.dropLast ++ [set_state snap s] ∧
    ∀ snap0 : Snapshot, (buf.append_state snap0).append_state snap = buf.append_state snap := by
  have hne : buf.states ≠ [] := by
    intro h
    rw [h] at hlast
    simp at hlast
  have heq : (buf.append_state snap).states = buf.states.dropLast ++ [set_state snap s] := by
    unfold TextLineBuffer.append_state
    simp [hlast, hidx]
  refine ⟨?_, heq, ?_⟩
  · have hpos : 0 < buf.states.length := List.length_pos.mpr hne
    rw [heq, List.length_append, List.length_dropLast]
    simp
    omega
  · intro snap0
    rcases buf.states.eq_nil_or_concat with h0 | ⟨L, sl, h0⟩
    · exact absurd h0 hne
    · rw [List.concat_eq_append] at h0
      rw [h0] at hlast
      rw [List.getLast?_concat] at hlast
      have hsl : sl = s := by injection hlast
      subst hsl
      have h1 : buf.append_state snap0
          = { buf with states := L ++ [set_state snap0 sl] } := by
        unfold TextLineBuffer.append_state
        simp [h0, List.getLast?_concat, hidx, List.dropLast_concat]
      have h2 : buf.append_state snap
          = { buf with states := L ++ [set_state snap sl] } := by
        unfold TextLineBuffer.append_state
        simp [h0, List.getLast?_concat, hidx, List.dropLast_concat]
      rw [h1, h2]
      unfold TextLineBuffer.append_state
      have : (set_state snap0 sl).start_idx = buf.text.length := hidx
      simp [List.getLast?_concat, this, List.dropLast_concat, set_state_set_state]

/-- Witness for claim C10 at a concrete buffer. -/
theorem append_state_overwrite_witness :
    (bufW2.append_state snapW2).states.length = bufW2.states.length ∧
    ∀ snap0 : Snapshot, (bufW2.append_state snap0).append_state snapW2
      = bufW2.append_state snapW2 :=
  ⟨(append_state_overwrite bufW2 snapW2 (set_state snapW
      { State.default with start_idx := 1, hash_umask := fun _ => false })
      (by decide) (by decide)).1,
   fun snap0 => (append_state_overwrite bufW2 snapW2 (set_state snapW
      { State.default with start_idx := 1, hash_umask := fun _ => false })
      (by decide) (by decide)).2.2 snap0⟩

/-- Claim C6 (amended): on a non-empty buffer whose first state segment does
not start at index 0 (or with no state segment at all), `flush` logs the
warning, writes nothing, and returns early WITHOUT resetting the buffer:
the buffered text, offsets and states are all retained. -/
theorem flush_invalid_first_state (r : Renderer) (buf : TextLineBuffer)
    (htext : buf.text ≠ [])
    (hbad : ∀ s0 ∈ buf.states.head?, s0.start_idx ≠ 0) :
    buf.flush r = ([], buf, true) := by
  unfold TextLineBuffer.flush
  rcases hst : buf.states with _ | ⟨s0, rest⟩
  · simp [List.isEmpty_iff, htext]
  · have h0 : s0.start_idx ≠ 0 := by
      apply hbad
      rw [hst]
      simp
    simp [List.isEmpty_iff, htext, h0]

/-- Counterexample to claim C6 as stated: on a non-empty buffer with no
state segment, `flush` logs the warning and drops the line, but the buffer
is NOT reset to empty - the text (and everything else) is retained, so the
claim's "the buffer is reset to empty" is false at this input. -/
theorem flush_drop_counterexample :
    TextLineBuffer.flush rFix bufC6 = ([], bufC6, true) ∧ bufC6.text ≠ [] := by
  constructor
  · rfl
  · decide

/-- Witness for claim C6 (amended) at a concrete buffer. -/
theorem flush_invalid_first_state_witness :
    bufC6.text ≠ [] ∧ TextLineBuffer.flush rFix bufC6 = ([], bufC6, true) :=
  ⟨by decide, flush_invalid_first_state rFix bufC6 (by decide)
    (by intro s hs; simp [bufC6] at hs)⟩

/-- Helper: the byte reversal of the packed key is an involution. -/
theorem rev7_rev7 (c : Fin 7) : rev7 (rev7 c) = c := by
  fin_cases c <;> rfl

/-- Claim C5 (amended): `diff(s, s) = 0` always; for two states with every
channel bound (and packed keys computed by `hash`), `diff` returns 0
exactly when all ids agree modulo 256, and returns the exact count of
mismatching channels whenever some ids disagree modulo 256; in general,
whenever the packed-key fast path fails, `diff` returns the exact count of
commonly-bound channels with mismatching ids.  (The fast path CAN return 0
for states whose commonly-bound ids differ by a multiple of 256, so it does
change the result in collision cases; see the counterexample.) -/
theorem diff_semantics (a b : State)
    (ha : a.hash_value = fun j => a.ids (rev7 j) % 256)
    (hb : b.hash_value = fun j => b.ids (rev7 j) % 256) :
    (∀ s : State, State.diff s s = 0) ∧
    ((∀ i : Fin 7, a.hash_umask i = false) → (∀ i : Fin 7, b.hash_umask i = false) →
      ((State.diff a b = 0 ↔ ∀ c : Fin 7, a.ids c % 256 = b.ids c % 256) ∧
       ((∃ c : Fin 7, a.ids c % 256 ≠ b.ids c % 256) →
         State.diff a b = State.mismatchCount a b))) ∧
    ((∃ j : Fin 7, a.hash_umask j = false ∧ b.hash_umask j = false ∧
        a.hash_value j ≠ b.hash_value j) →
      State.diff a b = State.mismatchCount a b) := by
  have hfast : ∀ j : Fin 7, a.hash_value j = b.hash_value j ↔
      a.ids (rev7 j) % 256 = b.ids (rev7 j) % 256 := by
    intro j
    simp only [ha, hb]
  refine ⟨?_, ?_, ?_⟩
  · intro s
    simp [State.diff]
  · intro hba hbb
    by_cases hP : ∀ j : Fin 7, a.hash_umask j = false → b.hash_umask j = false →
        a.hash_value j = b.hash_value j
    · have hd : State.diff a b = 0 := by
        unfold State.diff
        rw [if_pos hP]
      constructor
      · rw [hd]
        simp only [true_iff]
        intro c
        have := hP (rev7 c) (hba _) (hbb _)
        rw [hfast, rev7_rev7] at this
        exact this
      · intro ⟨c, hc⟩
        exfalso
        apply hc
        have := hP (rev7 c) (hba _) (hbb _)
        rw [hfast, rev7_rev7] at this
        exact this
    · have hd : State.diff a b = State.mismatchCount a b := by
        simp only [State.diff, if_neg hP]
      push_neg at hP
      obtain ⟨j, _, _, hj⟩ := hP
      have hcj : a.ids (rev7 j) % 256 ≠ b.ids (rev7 j) % 256 :=
        fun h => hj ((hfast j).mpr h)
      have hidsne : a.ids (rev7 j) ≠ b.ids (rev7 j) := by
        intro h
        exact hcj (by rw [h])
      have hmm : State.mismatchCount a b ≠ 0 := by
        unfold State.mismatchCount
        rw [← Nat.pos_iff_ne_zero, Finset.card_pos]
        exact ⟨rev7 j, by simp [hba, hbb, hidsne]⟩
      constructor
      · rw [hd]
        constructor
        · intro h
          exact absurd h hmm
        · intro hall
          exact absurd (hall (rev7 j)) hcj
      · intro _
        exact hd
  · intro ⟨j, hja, hjb, hj⟩
    have hP : ¬ ∀ j : Fin 7, a.hash_umask j = false → b.hash_umask j = false →
        a.hash_value j = b.hash_value j := by
      intro h
      exact hj (h j hja hjb)
    simp only [State.diff, if_neg hP]

/-- Counterexample to claim C5 as stated: the states `sCA` and `sCB` are
bound on every channel and mismatch on the font-family channel (ids 0 and
256), so the claimed count is 1; but the packed-key fast path collides
(256 mod 256 = 0) and `diff` returns 0, so the fast path does change the
result. -/
theorem diff_claim_counterexample :
    State.diff sCA sCB = 0 ∧
    sCA.hash_umask FONT_ID = false ∧ sCB.hash_umask FONT_ID = false ∧
    sCA.ids FONT_ID ≠ sCB.ids FONT_ID ∧
    State.mismatchCount sCA sCB = 1 := by decide

/-- Witness for claim C5 (amended) at concrete states. -/
theorem diff_semantics_witness :
    State.diff sCA sCW = State.mismatchCount sCA sCW :=
  ((diff_semantics sCA sCW rfl rfl).2.1 (by decide) (by decide)).2 ⟨FONT_ID, by decide⟩

/-- Claim C1 (amended): at an offset boundary with `target = width + carry`:
if `|target| ≤ h_eps` nothing is emitted and `actual = 0`; else if the
word-spacing channel is bound and `target` is within `h_eps` of the natural
single-space advance, exactly one literal space is emitted and `actual` is
that advance; else `target` is installed in the gap-width registry and, IF
the returned actual offset is not within `EPS` of zero, an explicit gap
element carrying the returned id is emitted, containing a literal space
exactly when `target` exceeds the visual threshold (up to `EPS`) - when the
registry's actual offset is within `EPS` of zero, nothing is emitted at
all.  In every case the new carry is `target - actual`. -/
theorem processOffset_resolution (r : Renderer) (cs : State) (w dx : ℚ) (ci ln : Nat) :
    (processOffset r cs w dx ci ln).2.2.1 = (w + dx) - (processOffset r cs w dx ci ln).2.1 ∧
    (absQ (w + dx) ≤ r.h_eps →
      (processOffset r cs w dx ci ln).2.1 = 0 ∧ (processOffset r cs w dx ci ln).1 = []) ∧
    (r.h_eps < absQ (w + dx) → cs.hash_umask WORD_SPACE_ID = false →
      absQ (w + dx - cs.single_space_offset) ≤ r.h_eps →
      (processOffset r cs w dx ci ln).1 = [Out.text [32]] ∧
      (processOffset r cs w dx ci ln).2.1 = cs.single_space_offset) ∧
    (r.h_eps < absQ (w + dx) →
      (cs.hash_umask WORD_SPACE_ID = true ∨ r.h_eps < absQ (w + dx - cs.single_space_offset)) →
      (processOffset r cs w dx ci ln).2.1 = (r.whitespace_manager (w + dx)).2 ∧
      (equalQ (r.whitespace_manager (w + dx)).2 0 = false →
        (processOffset r cs w dx ci ln).1
          = [Out.openSpan [Token.gap (r.whitespace_manager (w + dx)).1],
             Out.text (if cs.em_size * r.space_threshold - EPS < w + dx then [32] else []),
             Out.closeSpan]) ∧
      (equalQ (r.whitespace_manager (w + dx)).2 0 = true →
        (processOffset r cs w dx ci ln).1 = [])) := by
  unfold processOffset
  by_cases h1 : absQ (w + dx) ≤ r.h_eps
  · rw [if_pos h1]
    refine ⟨by ring, fun _ => ⟨rfl, rfl⟩, ?_, ?_⟩
    · intro hlt
      exact absurd h1 (not_le.mpr hlt)
    · intro hlt
      exact absurd h1 (not_le.mpr hlt)
  · rw [if_neg h1]
    by_cases h2 : cs.hash_umask WORD_SPACE_ID = false ∧
        absQ (w + dx - cs.single_space_offset) ≤ r.h_eps
    · rw [if_pos h2]
      refine ⟨rfl, fun hle => absurd hle h1, fun _ _ _ => ⟨rfl, rfl⟩, ?_⟩
      intro _ hcase
      rcases hcase with hm | hlt
      · rw [h2.1] at hm
        exact absurd hm (by decide)
      · exact absurd h2.2 (not_le.mpr hlt)
    · rw [if_neg h2]
      by_cases h3 : equalQ (r.whitespace_manager (w + dx)).2 0 = false
      · rw [if_pos h3]
        refine ⟨rfl, fun hle => absurd hle h1, ?_, ?_⟩
        · intro _ hm hsp
          exact absurd ⟨hm, hsp⟩ h2
        · intro _ _
          refine ⟨rfl, fun _ => rfl, ?_⟩
          intro htrue
          rw [htrue] at h3
          exact absurd h3 (by decide)
      · rw [if_neg h3]
        refine ⟨rfl, fun hle => absurd hle h1, ?_, ?_⟩
        · intro _ hm hsp
          exact absurd ⟨hm, hsp⟩ h2
        · intro _ _
          refine ⟨rfl, ?_, fun _ => rfl⟩
          intro hfalse
          exact absurd hfalse h3

/-- Counterexample to claim C1 as stated: `target = 5` exceeds `h_eps = 1`
and the word-spacing channel is not bound, so the claim requires an
explicit gap element to be emitted; but the gap-width registry returns an
actual offset of 0, and the code emits nothing at all (the carry still
becomes `target - actual = 5`). -/
theorem processOffset_claim_counterexample :
    rSnap0.h_eps < absQ ((5 : ℚ) + 0) ∧
    csFree.hash_umask WORD_SPACE_ID = true ∧
    (processOffset rSnap0 csFree 5 0 3 0).1 = [] ∧
    (processOffset rSnap0 csFree 5 0 3 0).2.2.1 = 5 := by decide

/-- Witness for claim C1 (amended) at a concrete input (the literal-space
branch). -/
theorem processOffset_resolution_witness :
    (processOffset rFix csW 5 0 0 0).1 = [Out.text [32]] ∧
    (processOffset rFix csW 5 0 0 0).2.1 = csW.single_space_offset :=
  (processOffset_resolution rFix csW 5 0 0 0).2.2.1 (by decide) (by decide) (by decide)

/-- Helper: a width-map insertion never produces an empty map. -/
theorem widthInsert_ne_nil (m : List (ℚ × Nat)) (t : ℚ) : widthInsert m t ≠ [] := by
  cases m with
  | nil => simp [widthInsert]
  | cons kc rest =>
    obtain ⟨k, c⟩ := kc
    unfold widthInsert
    by_cases h1 : k < t - EPS
    · simp [h1]
    · by_cases h2 : absQ (k - t) ≤ EPS <;> simp [h1, h2]

/-- Helper: the width-collection fold preserves non-emptiness. -/
theorem collect_foldl_ne_nil (th : ℚ) (l : List Offset) (m : List (ℚ × Nat)) (hm : m ≠ []) :
    l.foldl (fun m o => if o.width < th - EPS then m else widthInsert m o.width) m ≠ [] := by
  induction l generalizing m with
  | nil => exact hm
  | cons o rest ih =>
    simp only [List.foldl_cons]
    by_cases h : o.width < th - EPS
    · rw [if_pos h]
      exact ih m hm
    · rw [if_neg h]
      exact ih _ (widthInsert_ne_nil m o.width)

/-- Helper: the collected width map is empty exactly when no offset width
qualifies (reaches `threshold - EPS`). -/
theorem collectWidths_eq_nil_iff (th : ℚ) (l : List Offset) :
    collectWidths th l = [] ↔ ∀ o ∈ l, o.width < th - EPS := by
  unfold collectWidths
  induction l with
  | nil => simp
  | cons o rest ih =>
    simp only [List.foldl_cons]
    by_cases h : o.width < th - EPS
    · rw [if_pos h]
      rw [ih]
      constructor
      · intro hall o' ho'
        rcases List.mem_cons.mp ho' with rfl | ho'
        · exact h
        · exact hall o' ho'
      · intro hall o' ho'
        exact hall o' (List.mem_cons_of_mem _ ho')
    · rw [if_neg h]
      constructor
      · intro hfold
        exact absurd hfold (collect_foldl_ne_nil th rest _ (widthInsert_ne_nil [] o.width))
      · intro hall
        exact absurd (hall o (List.mem_cons_self _ _)) h

/-- Claim C2: word-space inference per spaceless segment.  If no offset
width in the segment reaches the threshold (`em_size * space_threshold`, up
to `EPS`), the word-spacing channel is freed; otherwise the channel is
bound: `word_space` is first zeroed, the representative width `w*` of the
most frequent bucket is taken, `new_word_space = w* - (letter_space +
space_width * draw_font_size)` is installed through the word-space
registry, and the channel gets the installed id and actual value.  The
qualifying widths 120, 120, 85 select 120.  A segment whose text slice
contains a literal space is left unchanged by the segment loop. -/
theorem optimize_word_space_inference (r : Renderer) (s : State) (inSeg : List Offset)
    (text : List Nat) (offs : List Offset) (rest : List State) :
    ((∀ o ∈ inSeg, o.width < s.em_size * r.space_threshold - EPS) →
      inferWordSpace r s inSeg
        = { s with hash_umask := Function.update s.hash_umask WORD_SPACE_ID true }) ∧
    ((∃ o ∈ inSeg, ¬ (o.width < s.em_size * r.space_threshold - EPS)) →
      inferWordSpace r s inSeg
        = { s with
            ids := Function.update s.ids WORD_SPACE_ID
              (r.word_space_manager
                (mostUsedWidth (collectWidths (s.em_size * r.space_threshold) inSeg)
                  - (s.letter_space + s.space_width * s.draw_font_size))).1
            word_space := (r.word_space_manager
              (mostUsedWidth (collectWidths (s.em_size * r.space_threshold) inSeg)
                - (s.letter_space + s.space_width * s.draw_font_size))).2
            hash_umask := Function.update s.hash_umask WORD_SPACE_ID false }) ∧
    mostUsedWidth (collectWidths 0
      [{ start_idx := 0, width := 120 }, { start_idx := 1, width := 120 },
       { start_idx := 2, width := 85 }]) = 120 ∧
    ((((text.drop s.start_idx).take
        ((match rest with | [] => text.length | s2 :: _ => s2.start_idx) - s.start_idx)).contains
          32 = true) →
      optimizeAux r text offs (s :: rest) = s :: optimizeAux r text offs rest) := by
  refine ⟨?_, ?_, by decide, ?_⟩
  · intro hall
    have hnil : collectWidths (s.em_size * r.space_threshold) inSeg = [] :=
      (collectWidths_eq_nil_iff _ _).mpr hall
    simp only [inferWordSpace]
    rw [hnil]
    rfl
  · intro ⟨o, ho, hq⟩
    have hnnil : collectWidths (s.em_size * r.space_threshold) inSeg ≠ [] := by
      intro h
      exact hq ((collectWidths_eq_nil_iff _ _).mp h o ho)
    have hie : (collectWidths (s.em_size * r.space_threshold) inSeg).isEmpty = false := by
      cases h : (collectWidths (s.em_size * r.space_threshold) inSeg).isEmpty
      · rfl
      · exact absurd (List.isEmpty_iff.mp h) hnnil
    have hsso : ({ s with word_space := 0 } : State).single_space_offset
        = s.letter_space + s.space_width * s.draw_font_size := by
      simp [State.single_space_offset]
    simp only [inferWordSpace]
    rw [hie]
    simp only [Bool.false_eq_true, if_false]
    rw [hsso]
  · intro hcontains
    simp only [optimizeAux]
    rw [if_pos hcontains]

/-- Witness for claim C2 at concrete inputs: the spaceless segment with
offsets of widths 120, 120, 85 and threshold 0 binds the channel to the
installed value for `120 - (letter_space + space_width * draw_font_size)`. -/
theorem optimize_word_space_inference_witness :
    inferWordSpace rFix csW
      [{ start_idx := 0, width := 120 }, { start_idx := 1, width := 120 },
       { start_idx := 2, width := 85 }]
      = { csW with
          ids := Function.update csW.ids WORD_SPACE_ID
            (rFix.word_space_manager
              (mostUsedWidth (collectWidths (csW.em_size * rFix.space_threshold)
                [{ start_idx := 0, width := 120 }, { start_idx := 1, width := 120 },
                 { start_idx := 2, width := 85 }])
                - (csW.letter_space + csW.space_width * csW.draw_font_size))).1
          word_space := (rFix.word_space_manager
            (mostUsedWidth (collectWidths (csW.em_size * rFix.space_threshold)
              [{ start_idx := 0, width := 120 }, { start_idx := 1, width := 120 },
               { start_idx := 2, width := 85 }])
              - (csW.letter_space + csW.space_width * csW.draw_font_size))).2
          hash_umask := Function.update csW.hash_umask WORD_SPACE_ID false } :=
  (optimize_word_space_inference rFix csW
    [{ start_idx := 0, width := 120 }, { start_idx := 1, width := 120 },
     { start_idx := 2, width := 85 }] [] [] []).2.1
    ⟨{ start_idx := 0, width := 120 }, by decide, by decide⟩

/-- Helper for claim C3, generalized over the scan accumulator: when the
scanned remainder is `pre ++ e :: post` with every element of `pre` strictly
beyond the negative-offset boundary and `e` at or before it, the scan
leaves the suffix `e :: post` on the stack untouched and pops only elements
of `above` or `pre`. -/
theorem scanAux_boundary (s : State) (ln : Nat) (e : State) (post : List State)
    (he : e.start_idx ≤ ln) :
    ∀ (pre above : List State) (best : Nat),
      (∀ x ∈ pre, ln < x.start_idx) →
      (∃ kept, (scanAux s ln above best (pre ++ e :: post)).1 = kept ++ e :: post) ∧
      (∀ x ∈ (scanAux s ln above best (pre ++ e :: post)).2, x ∈ above ∨ x ∈ pre) := by
  intro pre
  induction pre with
  | nil =>
    intro above best _
    simp only [List.nil_append, scanAux]
    by_cases hc : State.diff s e < best
    · rw [if_pos hc]
      by_cases hz : State.diff s e = 0
      · rw [if_pos hz]
        exact ⟨⟨[], rfl⟩, fun x hx => Or.inl hx⟩
      · rw [if_neg hz, if_pos he]
        exact ⟨⟨[], rfl⟩, fun x hx => Or.inl hx⟩
    · rw [if_neg hc, if_pos he]
      exact ⟨⟨above, rfl⟩, fun x hx => absurd hx (List.not_mem_nil x)⟩
  | cons p pre' ih =>
    intro above best hpre
    have hp : ¬ p.start_idx ≤ ln := not_le.mpr (hpre p (List.mem_cons_self _ _))
    have hpre' : ∀ x ∈ pre', ln < x.start_idx :=
      fun x hx => hpre x (List.mem_cons_of_mem _ hx)
    simp only [List.cons_append, scanAux]
    by_cases hc : State.diff s p < best
    · rw [if_pos hc]
      by_cases hz : State.diff s p = 0
      · rw [if_pos hz]
        exact ⟨⟨p :: pre', rfl⟩, fun x hx => Or.inl hx⟩
      · rw [if_neg hz, if_neg hp]
        obtain ⟨⟨kept, hk⟩, hpop⟩ := ih [p] (State.diff s p) hpre'
        refine ⟨⟨kept, hk⟩, ?_⟩
        intro x hx
        rcases List.mem_append.mp hx with hx | hx
        · exact Or.inl hx
        · rcases hpop x hx with hx | hx
          · simp only [List.mem_singleton] at hx
            exact Or.inr (by rw [hx]; exact List.mem_cons_self _ _)
          · exact Or.inr (List.mem_cons_of_mem _ hx)
    · rw [if_neg hc, if_neg hp]
      obtain ⟨⟨kept, hk⟩, hpop⟩ := ih (above ++ [p]) best hpre'
      refine ⟨⟨kept, hk⟩, ?_⟩
      intro x hx
      rcases hpop x hx with hx | hx
      · rcases List.mem_append.mp hx with hx | hx
        · exact Or.inl hx
        · simp only [List.mem_singleton] at hx
          exact Or.inr (by rw [hx]; exact List.mem_cons_self _ _)
      · exact Or.inr (List.mem_cons_of_mem _ hx)

/-- Claim C3: when the open-element stack (innermost first) is
`pre ++ e :: post` with every element of `pre` opened strictly after the
most recent negative offset and `e.start_idx` at or before it, the greedy
scan stops at `e` without popping past it: the whole suffix `e :: post`
survives on the stack, and every popped (closed) element was opened
strictly after the negative-offset boundary - even when an ancestor with
strictly lower diff cost sits beyond `e` in `post`. -/
theorem scan_negative_boundary (s : State) (ln : Nat) (pre post : List State) (e : State)
    (he : e.start_idx ≤ ln) (hpre : ∀ x ∈ pre, ln < x.start_idx) :
    (∃ kept, (scanStack s ln (pre ++ e :: post)).1 = kept ++ e :: post) ∧
    (∀ x ∈ (scanStack s ln (pre ++ e :: post)).2, ln < x.start_idx) := by
  have h := scanAux_boundary s ln e post he pre [] ID_COUNT hpre
  refine ⟨h.1, ?_⟩
  intro x hx
  rcases h.2 x hx with hab | hpr
  · exact absurd hab (List.not_mem_nil x)
  · exact hpre x hpr

/-- Witness for claim C3 at a concrete stack with a cheaper ancestor beyond
the boundary. -/
theorem scan_negative_boundary_witness :
    (∃ kept, (scanStack sScan 4 ([bScan] ++ eScan :: [aScan])).1 = kept ++ eScan :: [aScan]) ∧
    (∀ x ∈ (scanStack sScan 4 ([bScan] ++ eScan :: [aScan])).2, 4 < x.start_idx) :=
  scan_negative_boundary sScan 4 [bScan] [aScan] eScan (by decide) (by decide)

/-- Helper: one step of the channel loop, in terms of the closed forms. -/
theorem beginStep_eq (prev : Option State) (st : State) (toks : List Token) (i : Fin 7) :
    State.beginStep prev (st, toks) i
      = (if adoptsB st prev i then adoptUpdate st prev i else st,
         toks ++ (beginEmits st prev i).toList) := by
  unfold State.beginStep adoptsB adoptUpdate beginEmits
  cases prev with
  | none =>
    by_cases hm : st.hash_umask i <;> simp [hm]
  | some p =>
    by_cases hm : st.hash_umask i
    · by_cases hp : p.hash_umask i <;> simp [hm, hp]
    · by_cases he : (!p.hash_umask i && decide (p.ids i = st.ids i)) = true <;>
        simp [hm, he]

/-- Helper: adoption at channel `i` does not change the emission decision
at a different channel. -/
theorem beginEmits_adoptUpdate (st : State) (prev : Option State) (i j : Fin 7)
    (hne : j ≠ i) :
    beginEmits (adoptUpdate st prev i) prev j = beginEmits st prev j := by
  cases prev with
  | none => rfl
  | some p =>
    unfold adoptUpdate beginEmits
    simp [Function.update_noteq hne]

/-- Helper: adoption at channel `i` does not change the adoption decision
at a different channel. -/
theorem adoptsB_adoptUpdate (st : State) (prev : Option State) (i j : Fin 7)
    (hne : j ≠ i) :
    adoptsB (adoptUpdate st prev i) prev j = adoptsB st prev j := by
  cases prev with
  | none => rfl
  | some p =>
    unfold adoptUpdate adoptsB
    simp [Function.update_noteq hne]

/-- Helper: adoption under an absent parent never happens. -/
theorem adoptsB_none (st : State) (i : Fin 7) : adoptsB st none i = false := by
  unfold adoptsB
  simp

/-- Helper: an adopted channel emits nothing. -/
theorem beginEmits_of_adopt (st : State) (prev : Option State) (i : Fin 7)
    (ha : adoptsB st prev i = true) : beginEmits st prev i = none := by
  unfold adoptsB at ha
  unfold beginEmits
  rw [if_pos (Bool.and_elim_left ha)]

/-- Helper: the channel loop never touches the geometric fields, the packed
key, or `need_close`. -/
theorem foldBegin_proj (prev : Option State) :
    ∀ (L : List (Fin 7)) (st : State) (acc : List Token),
      ((L.foldl (State.beginStep prev) (st, acc)).1).start_idx = st.start_idx ∧
      ((L.foldl (State.beginStep prev) (st, acc)).1).hash_value = st.hash_value ∧
      ((L.foldl (State.beginStep prev) (st, acc)).1).ascent = st.ascent ∧
      ((L.foldl (State.beginStep prev) (st, acc)).1).descent = st.descent ∧
      ((L.foldl (State.beginStep prev) (st, acc)).1).space_width = st.space_width ∧
      ((L.foldl (State.beginStep prev) (st, acc)).1).need_close = st.need_close := by
  intro L
  induction L with
  | nil => intro st acc; exact ⟨rfl, rfl, rfl, rfl, rfl, rfl⟩
  | cons i L' ih =>
    intro st acc
    simp only [List.foldl_cons, beginStep_eq]
    by_cases ha : adoptsB st prev i = true
    · rw [if_pos ha]
      cases prev with
      | none =>
        rw [adoptsB_none] at ha
        exact absurd ha (by decide)
      | some p =>
        obtain ⟨h1, h2, h3, h4, h5, h6⟩ := ih (adoptUpdate st (some p) i) (acc ++ (beginEmits st (some p) i).toList)
        exact ⟨h1, h2, h3, h4, h5, h6⟩
    · rw [if_neg ha]
      exact ih st _

/-- Helper: closed form of the ids and umask after the channel loop. -/
theorem foldBegin_ids_umask (prev : Option State) :
    ∀ (L : List (Fin 7)), L.Nodup → ∀ (st : State) (acc : List Token) (j : Fin 7),
      (((L.foldl (State.beginStep prev) (st, acc)).1).ids j
        = if j ∈ L ∧ adoptsB st prev j = true then parentIds prev j else st.ids j) ∧
      (((L.foldl (State.beginStep prev) (st, acc)).1).hash_umask j
        = if j ∈ L ∧ adoptsB st prev j = true then false else st.hash_umask j) := by
  intro L
  induction L with
  | nil =>
    intro _ st acc j
    simp
  | cons i L' ih =>
    intro hnd st acc j
    have hiL' : i ∉ L' := (List.nodup_cons.mp hnd).1
    have hnd' : L'.Nodup := (List.nodup_cons.mp hnd).2
    simp only [List.foldl_cons, beginStep_eq]
    by_cases ha : adoptsB st prev i = true
    · rw [if_pos ha]
      cases prev with
      | none =>
        rw [adoptsB_none] at ha
        exact absurd ha (by decide)
      | some p =>
        obtain ⟨hids, hum⟩ := ih hnd' (adoptUpdate st (some p) i)
          (acc ++ (beginEmits st (some p) i).toList) j
        by_cases hji : j = i
        · subst hji
          have hnotin : ¬ (j ∈ L' ∧ adoptsB (adoptUpdate st (some p) j) (some p) j = true) :=
            fun h => hiL' h.1
          constructor
          · rw [hids, if_neg hnotin]
            have : (adoptUpdate st (some p) j).ids j = p.ids j := by
              unfold adoptUpdate
              simp
            rw [this, if_pos ⟨List.mem_cons_self _ _, ha⟩]
            rfl
          · rw [hum, if_neg hnotin]
            have : (adoptUpdate st (some p) j).hash_umask j = false := by
              unfold adoptUpdate
              simp
            rw [this, if_pos ⟨List.mem_cons_self _ _, ha⟩]
        · have hadu : adoptsB (adoptUpdate st (some p) i) (some p) j = adoptsB st (some p) j :=
            adoptsB_adoptUpdate st (some p) i j hji
          have hidu : (adoptUpdate st (some p) i).ids j = st.ids j := by
            unfold adoptUpdate
            simp [Function.update_noteq hji]
          have humu : (adoptUpdate st (some p) i).hash_umask j = st.hash_umask j := by
            unfold adoptUpdate
            simp [Function.update_noteq hji]
          have hmem : (j ∈ i :: L') ↔ (j ∈ L') := by
            simp [List.mem_cons, hji]
          constructor
          · rw [hids, hadu, hidu]
            by_cases hj2 : j ∈ L' ∧ adoptsB st (some p) j = true
            · rw [if_pos hj2, if_pos ⟨hmem.symm.mp hj2.1, hj2.2⟩]
            · rw [if_neg hj2, if_neg (fun h => hj2 ⟨hmem.mp h.1, h.2⟩)]
          · rw [hum, hadu, humu]
            by_cases hj2 : j ∈ L' ∧ adoptsB st (some p) j = true
            · rw [if_pos hj2, if_pos ⟨hmem.symm.mp hj2.1, hj2.2⟩]
            · rw [if_neg hj2, if_neg (fun h => hj2 ⟨hmem.mp h.1, h.2⟩)]
    · rw [if_neg ha]
      obtain ⟨hids, hum⟩ := ih hnd' st (acc ++ (beginEmits st prev i).toList) j
      by_cases hji : j = i
      · subst hji
        have hnotin : ¬ (j ∈ L' ∧ adoptsB st prev j = true) := fun h => ha h.2
        have hnotin2 : ¬ (j ∈ j :: L' ∧ adoptsB st prev j = true) := fun h => ha h.2
        exact ⟨by rw [hids, if_neg hnotin, if_neg hnotin2],
               by rw [hum, if_neg hnotin, if_neg hnotin2]⟩
      · have hmem : (j ∈ i :: L') ↔ (j ∈ L') := by
          simp [List.mem_cons, hji]
        constructor
        · rw [hids]
          by_cases hj2 : j ∈ L' ∧ adoptsB st prev j = true
          · rw [if_pos hj2, if_pos ⟨hmem.symm.mp hj2.1, hj2.2⟩]
          · rw [if_neg hj2, if_neg (fun h => hj2 ⟨hmem.mp h.1, h.2⟩)]
        · rw [hum]
          by_cases hj2 : j ∈ L' ∧ adoptsB st prev j = true
          · rw [if_pos hj2, if_pos ⟨hmem.symm.mp hj2.1, hj2.2⟩]
          · rw [if_neg hj2, if_neg (fun h => hj2 ⟨hmem.mp h.1, h.2⟩)]

/-- Helper: closed form of one copied value field after the channel loop,
generic over the channel and its accessor. -/
theorem foldBegin_val (prev : Option State) (c : Fin 7) (f : State → ℚ)
    (pv : Option State → ℚ)
    (hstep : ∀ (st : State) (p : State) (i : Fin 7),
      f (adoptUpdate st (some p) i) = if i = c then pv (some p) else f st) :
    ∀ (L : List (Fin 7)), L.Nodup → ∀ (st : State) (acc : List Token),
      f ((L.foldl (State.beginStep prev) (st, acc)).1)
        = if c ∈ L ∧ adoptsB st prev c = true then pv prev else f st := by
  intro L
  induction L with
  | nil =>
    intro _ st acc
    simp
  | cons i L' ih =>
    intro hnd st acc
    have hiL' : i ∉ L' := (List.nodup_cons.mp hnd).1
    have hnd' := (List.nodup_cons.mp hnd).2
    simp only [List.foldl_cons, beginStep_eq]
    by_cases ha : adoptsB st prev i = true
    · rw [if_pos ha]
      cases prev with
      | none =>
        rw [adoptsB_none] at ha
        exact absurd ha (by decide)
      | some p =>
        rw [ih hnd' (adoptUpdate st (some p) i) (acc ++ (beginEmits st (some p) i).toList)]
        by_cases hic : i = c
        · subst hic
          rw [if_neg (fun h => hiL' h.1), hstep, if_pos rfl,
            if_pos ⟨List.mem_cons_self _ _, ha⟩]
        · have hci : ¬ c = i := fun h => hic h.symm
          rw [adoptsB_adoptUpdate st (some p) i c hci]
          have hfc : f (adoptUpdate st (some p) i) = f st := by
            rw [hstep, if_neg hic]
          rw [hfc]
          have hmem : (c ∈ i :: L') ↔ (c ∈ L') := by
            simp [List.mem_cons, hci]
          by_cases h2 : c ∈ L' ∧ adoptsB st (some p) c = true
          · rw [if_pos h2, if_pos ⟨hmem.symm.mp h2.1, h2.2⟩]
          · rw [if_neg h2, if_neg (fun h => h2 ⟨hmem.mp h.1, h.2⟩)]
    · rw [if_neg ha]
      rw [ih hnd' st (acc ++ (beginEmits st prev i).toList)]
      by_cases hic : i = c
      · subst hic
        have hn1 : ¬ (i ∈ L' ∧ adoptsB st prev i = true) := fun h => ha h.2
        have hn2 : ¬ (i ∈ i :: L' ∧ adoptsB st prev i = true) := fun h => ha h.2
        rw [if_neg hn1, if_neg hn2]
      · have hci : ¬ c = i := fun h => hic h.symm
        have hmem : (c ∈ i :: L') ↔ (c ∈ L') := by
          simp [List.mem_cons, hci]
        by_cases h2 : c ∈ L' ∧ adoptsB st prev c = true
        · rw [if_pos h2, if_pos ⟨hmem.symm.mp h2.1, h2.2⟩]
        · rw [if_neg h2, if_neg (fun h => h2 ⟨hmem.mp h.1, h.2⟩)]

/-- Helper: the tokens produced by the channel loop are the per-channel
emission decisions, taken on the original state, in channel order. -/
theorem foldBegin_snd (prev : Option State) :
    ∀ (L : List (Fin 7)), L.Nodup → ∀ (st : State) (acc : List Token),
      (L.foldl (State.beginStep prev) (st, acc)).2
        = acc ++ L.filterMap (beginEmits st prev) := by
  intro L
  induction L with
  | nil =>
    intro _ st acc
    simp
  | cons i L' ih =>
    intro hnd st acc
    have hiL' : i ∉ L' := (List.nodup_cons.mp hnd).1
    have hnd' := (List.nodup_cons.mp hnd).2
    simp only [List.foldl_cons, beginStep_eq]
    by_cases ha : adoptsB st prev i = true
    · rw [if_pos ha]
      cases prev with
      | none =>
        rw [adoptsB_none] at ha
        exact absurd ha (by decide)
      | some p =>
        rw [ih hnd' (adoptUpdate st (some p) i) (acc ++ (beginEmits st (some p) i).toList)]
        rw [beginEmits_of_adopt st (some p) i ha]
        have hcong : L'.filterMap (beginEmits (adoptUpdate st (some p) i) (some p))
            = L'.filterMap (beginEmits st (some p)) := by
          apply List.filterMap_congr
          intro j hj
          exact beginEmits_adoptUpdate st (some p) i j (fun h => hiL' (h ▸ hj))
        rw [hcong]
        simp [List.filterMap_cons, beginEmits_of_adopt st (some p) i ha]
    · rw [if_neg ha]
      rw [ih hnd' st (acc ++ (beginEmits st prev i).toList)]
      rw [List.append_assoc]
      congr 1
      cases h : beginEmits st prev i with
      | none => simp [List.filterMap_cons, h]
      | some t => simp [List.filterMap_cons, h]

/-- Claim C4 (amended): `begin(self, parent)` processes channels in fixed
order.  A channel Free in self with the parent Bound adopts the parent's id
and value and emits nothing; a channel Free in self with no bound parent
value stays free and also emits nothing; a channel Bound in self emits no
token ONLY when the parent is bound to the same id - in particular, when
the parent has no bound value for it, one token IS emitted; in every
emitting case exactly one token per channel is produced (the sentinel token
when the id is -1, captured by `beginEmits`).  A new element owning a close
is opened exactly when at least one token was emitted; otherwise self is a
transparent pass-through and `end` emits nothing. -/
theorem begin_channel_rules (self : State) (prev : Option State) :
    (State.begin self prev).2 = (List.finRange 7).filterMap (beginEmits self prev) ∧
    (∀ j, (State.begin self prev).1.ids j
        = if adoptsB self prev j then parentIds prev j else self.ids j) ∧
    (∀ j, (State.begin self prev).1.hash_umask j
        = if adoptsB self prev j then false else self.hash_umask j) ∧
    ((State.begin self prev).1.draw_font_size
        = if adoptsB self prev FONT_SIZE_ID then parentDFS prev else self.draw_font_size) ∧
    ((State.begin self prev).1.letter_space
        = if adoptsB self prev LETTER_SPACE_ID then parentLS prev else self.letter_space) ∧
    ((State.begin self prev).1.word_space
        = if adoptsB self prev WORD_SPACE_ID then parentWS prev else self.word_space) ∧
    ((State.begin self prev).1.need_close
        = !((List.finRange 7).filterMap (beginEmits self prev)).isEmpty) ∧
    (State.end' (State.begin self prev).1
        = if ((List.finRange 7).filterMap (beginEmits self prev)).isEmpty then []
          else [Out.closeSpan]) := by
  have hnd : (List.finRange 7).Nodup := List.nodup_finRange 7
  have hsnd := foldBegin_snd prev (List.finRange 7) hnd self []
  have hmem : ∀ j : Fin 7, j ∈ List.finRange 7 := fun j => List.mem_finRange j
  constructor
  · simp only [State.begin]
    rw [hsnd]
    simp
  refine ⟨?_, ?_, ?_, ?_, ?_, ?_, ?_⟩
  · intro j
    have h := (foldBegin_ids_umask prev (List.finRange 7) hnd self [] j).1
    simp only [State.begin]
    rw [h]
    simp [hmem j]
  · intro j
    have h := (foldBegin_ids_umask prev (List.finRange 7) hnd self [] j).2
    simp only [State.begin]
    rw [h]
    simp [hmem j]
  · have h := foldBegin_val prev FONT_SIZE_ID (fun s => s.draw_font_size) parentDFS
      (fun st p i => rfl) (List.finRange 7) hnd self []
    simp only [State.begin]
    rw [h]
    simp [hmem FONT_SIZE_ID]
  · have h := foldBegin_val prev LETTER_SPACE_ID (fun s => s.letter_space) parentLS
      (fun st p i => rfl) (List.finRange 7) hnd self []
    simp only [State.begin]
    rw [h]
    simp [hmem LETTER_SPACE_ID]
  · have h := foldBegin_val prev WORD_SPACE_ID (fun s => s.word_space) parentWS
      (fun st p i => rfl) (List.finRange 7) hnd self []
    simp only [State.begin]
    rw [h]
    simp [hmem WORD_SPACE_ID]
  · simp only [State.begin]
    rw [hsnd]
    simp
  · simp only [State.begin, State.end']
    simp only [hsnd, List.nil_append]
    cases hie : ((List.finRange 7).filterMap (beginEmits self prev)).isEmpty <;> simp [hie]

/-- Counterexample to claim C4 as stated: `csSelf` is Bound on the
font-family channel while the parent has no bound value for it; the claim
says no class token is emitted in that case, but `begin` emits exactly the
font-family token and opens an element owning a close. -/
theorem begin_claim_counterexample :
    csParentFree.hash_umask FONT_ID = true ∧
    csSelf.hash_umask FONT_ID = false ∧
    (State.begin csSelf (some csParentFree)).2 = [Token.cls FONT_ID 5] ∧
    (State.begin csSelf (some csParentFree)).1.need_close = true := by decide

/-- Helper: `begin` owns a close exactly when it emitted tokens. -/
theorem begin_need_close (s : State) (prev : Option State) :
    (State.begin s prev).1.need_close = !(State.begin s prev).2.isEmpty := rfl

theorem ncount_nil : ncount [] = 0 := rfl

theorem ncount_cons (st : State) (l : List State) :
    ncount (st :: l) = ncount l + if st.need_close then 1 else 0 := by
  simp [ncount, List.countP_cons]

theorem ncount_append (a b : List State) : ncount (a ++ b) = ncount a + ncount b := by
  simp [ncount, List.countP_append]

theorem opens_nil : opens [] = 0 := rfl

theorem closes_nil : closes [] = 0 := rfl

theorem opens_append (a b : List Out) : opens (a ++ b) = opens a + opens b := by
  simp [opens, List.countP_append]

theorem closes_append (a b : List Out) : closes (a ++ b) = closes a + closes b := by
  simp [closes, List.countP_append]

/-- Helper: the greedy scan partitions the stack entries owning a close
between the surviving stack and the popped elements. -/
theorem scanAux_ncount (s : State) (ln : Nat) :
    ∀ (rest above : List State) (best : Nat),
      ncount (scanAux s ln above best rest).1 + ncount (scanAux s ln above best rest).2
        = ncount above + ncount rest := by
  intro rest
  induction rest with
  | nil =>
    intro above best
    simp [scanAux, ncount_nil]
  | cons e rest ih =>
    intro above best
    simp only [scanAux]
    by_cases hc : State.diff s e < best
    · rw [if_pos hc]
      by_cases hz : State.diff s e = 0
      · rw [if_pos hz]
        simp only [ncount_cons]
        omega
      · rw [if_neg hz]
        by_cases hb : e.start_idx ≤ ln
        · rw [if_pos hb]
          simp only [ncount_cons]
          omega
        · rw [if_neg hb]
          have h := ih [e] (State.diff s e)
          simp only [ncount_append, ncount_cons, ncount_nil] at *
          omega
    · rw [if_neg hc]
      by_cases hb : e.start_idx ≤ ln
      · rw [if_pos hb]
        simp only [ncount_append, ncount_cons, ncount_nil]
        omega
      · rw [if_neg hb]
        have h := ih (above ++ [e]) best
        simp only [ncount_append, ncount_cons, ncount_nil] at *
        omega

/-- Helper: the fold of `end` emissions opens nothing and closes exactly
the elements owning a close. -/
theorem endFold_counts (l : List State) :
    opens (l.foldr (fun st acc => st.end' ++ acc) []) = 0 ∧
    closes (l.foldr (fun st acc => st.end' ++ acc) []) = ncount l := by
  induction l with
  | nil => exact ⟨rfl, rfl⟩
  | cons st rest ih =>
    simp only [List.foldr_cons]
    rw [opens_append, closes_append, ncount_cons]
    have h1 : opens st.end' = 0 := by
      unfold State.end'
      cases st.need_close <;> rfl
    have h2 : closes st.end' = if st.need_close then 1 else 0 := by
      unfold State.end'
      cases st.need_close <;> rfl
    rw [h1, h2, ih.1, ih.2]
    exact ⟨rfl, by omega⟩

/-- Helper: a resolved offset emits a balanced fragment. -/
theorem processOffset_balanced (r : Renderer) (cs : State) (w dx : ℚ) (ci ln : Nat) :
    opens (processOffset r cs w dx ci ln).1 = closes (processOffset r cs w dx ci ln).1 := by
  unfold processOffset
  by_cases h1 : absQ (w + dx) ≤ r.h_eps
  · rw [if_pos h1]
    rfl
  · rw [if_neg h1]
    by_cases h2 : cs.hash_umask WORD_SPACE_ID = false ∧
        absQ (w + dx - cs.single_space_offset) ≤ r.h_eps
    · rw [if_pos h2]
      rfl
    · rw [if_neg h2]
      by_cases h3 : equalQ (r.whitespace_manager (w + dx)).2 0 = false
      · rw [if_pos h3]
        rfl
      · rw [if_neg h3]
        rfl

/-- Helper: the state-boundary block changes the open-minus-closed count by
exactly the change in close-owning stack entries. -/
theorem stateBoundary_balance (sts stack : List State) (ln cur : Nat) :
    (opens (stateBoundary sts stack ln cur).1 : ℤ)
        - closes (stateBoundary sts stack ln cur).1
      = (ncount (stateBoundary sts stack ln cur).2.2 : ℤ) - ncount stack := by
  cases sts with
  | nil =>
    simp only [stateBoundary, opens_nil, closes_nil]
    omega
  | cons s rest =>
    simp only [stateBoundary]
    by_cases hs : s.start_idx ≤ cur
    · rw [if_pos hs]
      simp only
      have hpart := scanAux_ncount s ln stack [] ID_COUNT
      have hend := endFold_counts (scanAux s ln [] ID_COUNT stack).2
      have hnc := begin_need_close s (scanAux s ln [] ID_COUNT stack).1.head?
      simp only [scanStack] at *
      rw [opens_append, closes_append, ncount_cons, hend.1, hend.2]
      by_cases hemp : (State.begin s (scanAux s ln [] ID_COUNT stack).1.head?).2.isEmpty = true
      · rw [if_pos hemp]
        have hncv : (State.begin s (scanAux s ln [] ID_COUNT stack).1.head?).1.need_close
            = false := by
          rw [hnc, hemp]
          rfl
        rw [hncv]
        simp only [opens_nil, closes_nil, ncount_nil, Bool.false_eq_true, if_false] at *
        omega
      · have hemp' : (State.begin s (scanAux s ln [] ID_COUNT stack).1.head?).2.isEmpty
            = false := by
          revert hemp
          cases (State.begin s (scanAux s ln [] ID_COUNT stack).1.head?).2.isEmpty <;> simp
        rw [hemp']
        have hncv : (State.begin s (scanAux s ln [] ID_COUNT stack).1.head?).1.need_close
            = true := by
          rw [hnc, hemp']
          rfl
        rw [hncv]
        simp only [Bool.false_eq_true, if_false, if_pos] at *
        have hop : opens [Out.openSpan (State.begin s
            (scanAux s ln [] ID_COUNT stack).1.head?).2] = 1 := rfl
        have hcl : closes [Out.openSpan (State.begin s
            (scanAux s ln [] ID_COUNT stack).1.head?).2] = 0 := rfl
        rw [hop, hcl]
        simp only [ncount_nil] at hpart
        omega
    · rw [if_neg hs]
      simp only [opens_nil, closes_nil]
      omega

/-- Helper: the offset-boundary block emits a balanced fragment and leaves
the stack alone. -/
theorem offsetBoundary_balanced (r : Renderer) (offs : List Offset) (stack : List State)
    (dx : ℚ) (ln cur : Nat) :
    opens (offsetBoundary r offs stack dx ln cur).1
      = closes (offsetBoundary r offs stack dx ln cur).1 := by
  cases offs with
  | nil => rfl
  | cons o orest =>
    simp only [offsetBoundary]
    by_cases ho : o.start_idx ≤ cur
    · rw [if_pos ho]
      cases stack with
      | nil => rfl
      | cons cs srest => exact processOffset_balanced r cs o.width dx cur ln
    · rw [if_neg ho]
      rfl

/-- Helper: over the whole render loop, the open-minus-closed count equals
the change in close-owning stack entries. -/
theorem flushLoop_balance (r : Renderer) (text : List Nat) :
    ∀ (fuel : Nat) (sts : List State) (offs : List Offset) (stack : List State)
      (dx : ℚ) (ln cur : Nat),
      (opens (flushLoop r text fuel sts offs stack dx ln cur).1 : ℤ)
          - closes (flushLoop r text fuel sts offs stack dx ln cur).1
        = (ncount (flushLoop r text fuel sts offs stack dx ln cur).2 : ℤ) - ncount stack := by
  intro fuel
  induction fuel with
  | zero =>
    intro sts offs stack dx ln cur
    simp only [flushLoop, opens_nil, closes_nil]
    omega
  | succ fuel ih =>
    intro sts offs stack dx ln cur
    simp only [flushLoop]
    by_cases hcur : cur < text.length
    · rw [if_pos hcur]
      simp only
      have h1 := stateBoundary_balance sts stack ln cur
      have h2 := offsetBoundary_balanced r offs (stateBoundary sts stack ln cur).2.2 dx ln cur
      have h3 := ih (stateBoundary sts stack ln cur).2.1
        (offsetBoundary r offs (stateBoundary sts stack ln cur).2.2 dx ln cur).2.1
        (stateBoundary sts stack ln cur).2.2
        (offsetBoundary r offs (stateBoundary sts stack ln cur).2.2 dx ln cur).2.2.1
        (offsetBoundary r offs (stateBoundary sts stack ln cur).2.2 dx ln cur).2.2.2
        (min (headStartS (stateBoundary sts stack ln cur).2.1 text.length)
          (headStartO (offsetBoundary r offs (stateBoundary sts stack ln cur).2.2 dx ln cur).2.1
            text.length))
      rw [opens_append, opens_append, opens_append,
        closes_append, closes_append, closes_append]
      have htext : ∀ outT : List Out,
          (∀ x ∈ outT, ∃ cs, x = Out.text cs) → opens outT = 0 ∧ closes outT = 0 := by
        intro outT hx
        induction outT with
        | nil => exact ⟨rfl, rfl⟩
        | cons a l ihl =>
          obtain ⟨cs, rfl⟩ := hx a (List.mem_cons_self _ _)
          have := ihl (fun x h => hx x (List.mem_cons_of_mem _ h))
          simp only [opens, closes, List.countP_cons] at *
          simp [this.1, this.2]
      have hT := htext (if ((text.drop cur).take
          ((min (headStartS (stateBoundary sts stack ln cur).2.1 text.length)
            (headStartO (offsetBoundary r offs
              (stateBoundary sts stack ln cur).2.2 dx ln cur).2.1 text.length)) - cur)).isEmpty
          then []
          else [Out.text ((text.drop cur).take
            ((min (headStartS (stateBoundary sts stack ln cur).2.1 text.length)
              (headStartO (offsetBoundary r offs
                (stateBoundary sts stack ln cur).2.2 dx ln cur).2.1 text.length)) - cur))])
        (by
          intro x hx
          by_cases hc : ((text.drop cur).take
              ((min (headStartS (stateBoundary sts stack ln cur).2.1 text.length)
                (headStartO (offsetBoundary r offs
                  (stateBoundary sts stack ln cur).2.2 dx ln cur).2.1 text.length))
                - cur)).isEmpty
          · rw [if_pos hc] at hx
            exact absurd hx (List.not_mem_nil x)
          · rw [if_neg hc] at hx
            simp only [List.mem_singleton] at hx
            exact ⟨_, hx⟩)
      rw [hT.1, hT.2]
      omega
    · rw [if_neg hcur]
      simp only [opens_nil, closes_nil]
      omega

/-- Helper: every `flush` output is balanced. -/
theorem flush_balanced (r : Renderer) (buf : TextLineBuffer) :
    opens (buf.flush r).1 = closes (buf.flush r).1 := by
  unfold TextLineBuffer.flush
  by_cases he : buf.text.isEmpty
  · rw [if_pos he]
    rfl
  · rw [if_neg he]
    cases hst : buf.states with
    | nil => rfl
    | cons s0 rest =>
      dsimp only
      by_cases h0 : s0.start_idx ≠ 0
      · rw [if_pos h0]
        rfl
      · rw [if_neg h0]
        simp only
        have hloop := flushLoop_balance r buf.text
          (buf.text.length
            + ((optimizeAux r buf.text buf.offsets (s0 :: rest)
                ++ [{ State.default with start_idx := buf.text.length }]).map State.hash).length
            + (buf.offsets ++ [({ start_idx := buf.text.length, width := 0 } : Offset)]).length + 1)
          ((optimizeAux r buf.text buf.offsets (s0 :: rest)
            ++ [{ State.default with start_idx := buf.text.length }]).map State.hash)
          (buf.offsets ++ [({ start_idx := buf.text.length, width := 0 } : Offset)]) [] 0 0 0
        have hend := endFold_counts (flushLoop r buf.text
          (buf.text.length
            + ((optimizeAux r buf.text buf.offsets (s0 :: rest)
                ++ [{ State.default with start_idx := buf.text.length }]).map State.hash).length
            + (buf.offsets ++ [({ start_idx := buf.text.length, width := 0 } : Offset)]).length + 1)
          ((optimizeAux r buf.text buf.offsets (s0 :: rest)
            ++ [{ State.default with start_idx := buf.text.length }]).map State.hash)
          (buf.offsets ++ [({ start_idx := buf.text.length, width := 0 } : Offset)]) [] 0 0 0).2
        simp only [opens, closes, List.countP_cons, List.countP_append, List.countP_nil,
          if_true, Bool.false_eq_true, if_false] at *
        simp only [ncount_nil] at hloop
        omega

/-- Claim C7: for every sequence of append calls followed by `flush`, the
emitted markup fragment is balanced: the number of opened elements (line
wrapper, style wrappers, gap elements) equals the number of closed
elements. -/
theorem flush_balanced_ops (r : Renderer) (x y : ℚ) (tm : ℤ) (ops : List AppendOp) :
    opens ((applyOps (TextLineBuffer.empty x y tm) ops).flush r).1
      = closes ((applyOps (TextLineBuffer.empty x y tm) ops).flush r).1 :=
  flush_balanced r (applyOps (TextLineBuffer.empty x y tm) ops)

/-- Helper: the render loop is a no-op once the cursor has reached the text
end (with any fuel). -/
theorem flushLoop_done (r : Renderer) (text : List Nat) (fuel : Nat) (sts : List State)
    (offs : List Offset) (stack : List State) (dx : ℚ) (ln cur : Nat)
    (h : ¬ cur < text.length) :
    flushLoop r text fuel sts offs stack dx ln cur = ([], stack) := by
  cases fuel with
  | zero => rfl
  | succ fuel =>
    simp only [flushLoop]
    rw [if_neg h]

/-- Helper: `optimize` on a single segment with no offsets either keeps the
segment (slice has a space) or frees its word-space channel. -/
theorem optimizeAux_single (r : Renderer) (text : List Nat) (s : State) :
    optimizeAux r text [] [s]
      = if ((text.drop s.start_idx).take (text.length - s.start_idx)).contains 32
        then [s]
        else [{ s with hash_umask := Function.update s.hash_umask WORD_SPACE_ID true }] := by
  simp only [optimizeAux]
  by_cases h : ((text.drop s.start_idx).take (text.length - s.start_idx)).contains 32 = true
  · rw [if_pos h, if_pos h]
  · rw [if_neg h, if_neg h]
    simp [inferWordSpace, collectWidths]

/-- Helper: `begin` against no parent emits at least the font-family token
when that channel is bound. -/
theorem begin_tokens_ne_nil (s : State) (h : s.hash_umask FONT_ID = false) :
    (State.begin s none).2.isEmpty = false := by
  have h1 := foldBegin_snd none (List.finRange 7) (List.nodup_finRange 7) s []
  have hshow : (State.begin s none).2
      = (List.foldl (State.beginStep none) (s, []) (List.finRange 7)).2 := rfl
  rw [hshow, h1]
  have hfr : (List.finRange 7) = FONT_ID :: [1, 2, 3, 4, 5, 6] := by decide
  rw [hfr, List.filterMap_cons]
  have hemit : beginEmits s none FONT_ID
      = some (if s.ids FONT_ID = -1 then Token.invalid FONT_ID
              else Token.cls FONT_ID (s.ids FONT_ID)) := by
    unfold beginEmits
    rw [if_neg (by rw [h]; decide)]
    rfl
  rw [hemit]
  rfl

/-- Helper: `begin` emits only channel tokens, never gap tokens. -/
theorem begin_tokens_no_gap (s : State) (prev : Option State) :
    ((State.begin s prev).2.any fun t =>
      match t with | Token.gap _ => true | _ => false) = false := by
  have h1 := foldBegin_snd prev (List.finRange 7) (List.nodup_finRange 7) s []
  have hshow : (State.begin s prev).2
      = (List.foldl (State.beginStep prev) (s, []) (List.finRange 7)).2 := rfl
  rw [hshow, h1]
  simp only [List.nil_append]
  rw [List.any_eq_false]
  intro t ht
  rw [List.mem_filterMap] at ht
  obtain ⟨i, _, hemit⟩ := ht
  unfold beginEmits at hemit
  split at hemit
  · exact absurd hemit (by simp)
  · split at hemit
    · exact absurd hemit (by simp)
    · have ht2 : (if s.ids i = -1 then Token.invalid i else Token.cls i (s.ids i)) = t := by
        injection hemit
      rw [← ht2]
      by_cases hid : s.ids i = -1
      · rw [if_pos hid]
        simp
      · rw [if_neg hid]
        simp

/-- Helper: two-iteration evaluation of the render loop on a line with a
single real state, its trailing dummies, and no real offsets. -/
theorem flushLoop_two_steps (r : Renderer) (text : List Nat) (sH sD : State) (oD : Offset)
    (fuel : Nat) (hlen : 0 < text.length) (hs : sH.start_idx = 0)
    (hD : text.length ≤ sD.start_idx) (hoD : text.length ≤ oD.start_idx) :
    flushLoop r text (fuel + 1) [sH, sD] [oD] [] 0 0 0
      = ((if (State.begin sH none).2.isEmpty then []
          else [Out.openSpan (State.begin sH none).2]) ++ [Out.text text],
         [(State.begin sH none).1]) := by
  simp only [flushLoop]
  rw [if_pos hlen]
  have hsb : stateBoundary [sH, sD] [] 0 0
      = ((if (State.begin sH none).2.isEmpty then []
          else [Out.openSpan (State.begin sH none).2]), [sD], [(State.begin sH none).1]) := by
    simp only [stateBoundary]
    rw [if_pos (by omega : sH.start_idx ≤ 0)]
    rfl
  rw [hsb]
  have hob : offsetBoundary r [oD] [(State.begin sH none).1] 0 0 0
      = ([], [oD], 0, 0) := by
    simp only [offsetBoundary]
    rw [if_neg (by omega : ¬ oD.start_idx ≤ 0)]
  rw [hob]
  have hnext : min (headStartS [sD] text.length) (headStartO [oD] text.length)
      = min sD.start_idx oD.start_idx := rfl
  rw [hnext]
  have hseg : (text.drop 0).take (min sD.start_idx oD.start_idx - 0) = text := by
    rw [List.drop_zero, Nat.sub_zero]
    exact List.take_of_length_le (by omega)
  rw [hseg]
  have htne : text.isEmpty = false := by
    cases text with
    | nil => simp at hlen
    | cons a l => rfl
  rw [htne]
  rw [flushLoop_done r text fuel [sD] [oD] [(State.begin sH none).1] 0 0
    (min sD.start_idx oD.start_idx) (by omega)]
  simp

/-- Claim C8 (amended): on a line with a single uniform state segment (all
channels bound, segment starting at index 0, no offsets), `flush` emits
exactly one outer line wrapper and exactly ONE inner style element - the
first segment's span - not zero: the first segment always opens a span
because the line wrapper carries no style classes to inherit from. -/
theorem flush_uniform_single_wrapper (r : Renderer) (buf : TextLineBuffer) (s : State)
    (hoffs : buf.offsets = []) (hsts : buf.states = [s]) (hs0 : s.start_idx = 0)
    (htext : buf.text ≠ []) (hmask : s.hash_umask = fun _ => false) :
    divOpens (buf.flush r).1 = 1 ∧ styleOpens (buf.flush r).1 = 1 := by
  have he : buf.text.isEmpty = false := by
    cases htx : buf.text with
    | nil => exact absurd htx htext
    | cons a l => rfl
  have hlen : 0 < buf.text.length := List.length_pos.mpr htext
  obtain ⟨sO, hopt, hsOstart, hsOmask⟩ : ∃ sO : State,
      optimizeAux r buf.text [] [s] = [sO] ∧ sO.start_idx = 0 ∧
      sO.hash_umask FONT_ID = false := by
    rw [optimizeAux_single]
    by_cases hsp : ((buf.text.drop s.start_idx).take
        (buf.text.length - s.start_idx)).contains 32 = true
    · rw [if_pos hsp]
      exact ⟨s, rfl, hs0, by rw [hmask]⟩
    · rw [if_neg hsp]
      refine ⟨_, rfl, hs0, ?_⟩
      show Function.update s.hash_umask WORD_SPACE_ID true FONT_ID = false
      rw [Function.update_noteq (by decide : FONT_ID ≠ WORD_SPACE_ID), hmask]
  unfold TextLineBuffer.flush
  rw [he]
  simp only [Bool.false_eq_true, if_false, hsts, hoffs]
  rw [if_neg (by omega : ¬ s.start_idx ≠ 0)]
  rw [hopt]
  simp only [List.cons_append, List.nil_append, List.map_cons, List.map_nil,
    List.length_cons, List.length_nil]
  rw [flushLoop_two_steps r buf.text (State.hash sO)
    (State.hash { State.default with start_idx := buf.text.length })
    { start_idx := buf.text.length, width := 0 }
    (buf.text.length + (0 + 1 + 1) + (0 + 1)) hlen hsOstart (le_refl _) (le_refl _)]
  have hne := begin_tokens_ne_nil (State.hash sO) hsOmask
  have hnogap := begin_tokens_no_gap (State.hash sO) none
  have hclose : (State.begin (State.hash sO) none).1.need_close = true := by
    rw [begin_need_close, hne]
    rfl
  rw [hne]
  simp only [Bool.false_eq_true, if_false]
  have hendf : ([(State.begin (State.hash sO) none).1].foldr
      (fun st acc => st.end' ++ acc) []) = [Out.closeSpan] := by
    simp only [List.foldr_cons, List.foldr_nil, List.append_nil]
    unfold State.end'
    rw [if_pos hclose]
  rw [hendf]
  constructor
  · simp [divOpens, List.countP_cons, List.countP_append]
  · simp [styleOpens, List.countP_cons, List.countP_append, hnogap]

/-- Counterexample to claim C8 as stated: a line whose style is identical
throughout (a single uniform state segment) produces one outer wrapper and
ONE inner style element, not zero - the first segment's span always carries
its style classes. -/
theorem flush_uniform_counterexample :
    styleOpens (buf8.flush rFix).1 = 1 ∧ divOpens (buf8.flush rFix).1 = 1 := by decide

/-- Witness for claim C8 (amended) at a concrete buffer. -/
theorem flush_uniform_single_wrapper_witness :
    divOpens (TextLineBuffer.flush rFix
      { text := [72], offsets := [], states := [csSelfAllBound], x := 0, y := 0, tm_id := 0 }).1
        = 1 ∧
    styleOpens (TextLineBuffer.flush rFix
      { text := [72], offsets := [], states := [csSelfAllBound], x := 0, y := 0, tm_id := 0 }).1
        = 1 :=
  flush_uniform_single_wrapper rFix
    { text := [72], offsets := [], states := [csSelfAllBound], x := 0, y := 0, tm_id := 0 }
    csSelfAllBound rfl rfl rfl (by decide) rfl

end Pdf2htmlEX
